import Mathlib

/-! # Session core of the IMAP client model (`src/Imap/Model.cpp`)

A shallow embedding of `Imap::Mailbox::Model`: the connection state machine
(`handleState`, `handleStateInitial`), the command table, the buffer of LIST
responses and the finalization of a LIST command into the mailbox tree
(`_finalizeList`, `SortMailboxes`).

Conventions of the embedding.

* A C++ member function that mutates the model and may throw becomes a
  function `Model → Model × Option Exn`: the model as the call leaves it
  (mutations made before a `throw` stay visible, as in C++) and the
  exception thrown, if any.
* `TreeItem*` pointers are indices into an arena `Model._heap`; `new`
  appends to the arena. Freed memory is not modelled: `setChildren` drops the
  old children from the child list and leaves their cells in the arena.
* Emitted Qt signals are appended to `Model._emitted`.
-/

namespace Imap

/-- QString whose null-ness matters (`none` is the null string). Only the
contents take part in `+`, `==` and `compare`. -/
abbrev QString := Option String

/-- Contents of a QString; the null string has no characters. -/
def QString.chars (s : QString) : List Char := (s.getD "").data

namespace Responses

/-- Modelled from the spec: the kinds a `State` response can have (the source
comment in `handleState` lists them: OK/NO/BAD/PREAUTH/BYE); the enum itself
is declared in the response header. -/
inductive Kind where
  | OK | NO | BAD | PREAUTH | BYE
  deriving DecidableEq, Repr

/-- Modelled from the spec: response codes, `{Alert, Capabilities, Other}` or
none; the enum itself is declared in the response header. -/
inductive Code where
  | NONE | ALERT | CAPABILITIES | OTHER
  deriving DecidableEq, Repr

/-- Modelled from the spec: the polymorphic payload `respCodeData` of a
response code. `handleState` downcasts it with `dynamic_cast`, which yields a
null pointer when the payload has another type. -/
inductive RespCodeData where
  | null
  | string (data : String)
  | stringList (data : List String)
  deriving DecidableEq, Repr

/-- Modelled from the spec: `Responses::State`, the fields `handleState`
reads. The tag is kept by its contents (`isEmpty` and the map lookup do not
see null-ness). -/
structure State where
  tag : String
  kind : Kind
  respCode : Code
  respCodeData : RespCodeData
  deriving DecidableEq, Repr

/-- Modelled from the spec: `Responses::List`, `{mailbox_name,
hierarchy_separator}`. -/
structure List where
  mailbox : QString
  separator : QString
  deriving DecidableEq, Repr

end Responses

namespace Mailbox

/-- The values of `ConnectionState` that `handleState` switches over. -/
inductive ConnectionState where
  | CONN_STATE_ESTABLISHED
  | CONN_STATE_NOT_AUTH
  | CONN_STATE_AUTH
  | CONN_STATE_SELECTING
  | CONN_STATE_SELECTED
  | CONN_STATE_LOGOUT
  deriving DecidableEq, Repr

/-- What the handlers throw: `UnexpectedResponseReceived(message, response)`
(the response attached is the one being handled) or the integer of
`throw 42`. -/
inductive Exn where
  | UnexpectedResponseReceived (msg : String)
  | int (n : Int)
  deriving DecidableEq, Repr

/-- Modelled from the spec: `Task::Kind`, `enum{None, List}`. -/
inductive TaskKind where
  | NONE | LIST
  deriving DecidableEq, Repr

/-- Modelled from the spec: `Task`, `{kind, target}`; `what` is a
`TreeItem*`. -/
structure Task where
  kind : TaskKind
  what : Nat
  deriving DecidableEq, Repr

/-- Modelled from the spec: `TreeItemMailbox`, a node of the mailbox tree
with its parent pointer, child pointers, name and hierarchy separator. -/
structure TreeItemMailbox where
  _parent : Option Nat
  _children : List Nat
  _mailbox : QString
  _separator : QString
  deriving DecidableEq, Repr

/-- Signals of the item model that `_finalizeList` emits. -/
inductive Signal where
  | layoutAboutToBeChanged
  | layoutChanged
  deriving DecidableEq, Repr

/-- The fields of `Model` that the response handlers read and write:
`_state`, `_capabilities`, `_capabilitiesFresh`, `_commandMap` (a `QMap`,
kept as an association list searched from the front), `_listResponses`,
the arena holding the tree, the root pointer `_mailboxes` and the log of
emitted signals. -/
structure Model where
  _state : ConnectionState
  _capabilities : List String
  _capabilitiesFresh : Bool
  _commandMap : List (String × Task)
  _listResponses : List Responses.List
  _heap : List TreeItemMailbox
  _mailboxes : Nat
  _emitted : List Signal
  deriving DecidableEq, Repr

/-- Modelled from the spec: the node `new TreeItemMailbox( parent )` builds
(the constructor is in the tree's own source file): null name and separator,
no children. -/
def TreeItemMailbox.new (parent : Option Nat) : TreeItemMailbox :=
  { _parent := parent, _children := [], _mailbox := none, _separator := none }

/-- Modelled from the spec: the node `new TreeItemMailbox( parent, response )`
builds (the constructor is in the tree's own source file): name and separator
taken from the LIST response, no children. -/
def TreeItemMailbox.ofList (parent : Nat) (response : Responses.List) : TreeItemMailbox :=
  { _parent := some parent, _children := [], _mailbox := response.mailbox,
    _separator := response.separator }

/-- Dereference of a `TreeItem*`. A pointer outside the arena reads as a
blank node; the theorems ask for pointers inside the arena. -/
def deref (heap : List TreeItemMailbox) (p : Nat) : TreeItemMailbox :=
  heap.getD p (TreeItemMailbox.new none)

/-- The session `Model::Model` constructs: state ESTABLISHED, capabilities
not fresh, and the root `new TreeItemMailbox( 0 )` as the only node. -/
def Model.init : Model :=
  { _state := .CONN_STATE_ESTABLISHED, _capabilities := [], _capabilitiesFresh := false,
    _commandMap := [], _listResponses := [], _heap := [TreeItemMailbox.new none],
    _mailboxes := 0, _emitted := [] }

/-- `Model::_updateState`. -/
def _updateState (m : Model) (state : ConnectionState) : Model :=
  { m with _state := state }

/-- `Model::handleStateInitial`. The `switch` has a `break` only after the
PREAUTH case: OK runs on into BYE, and BYE into `default`, which throws. -/
def handleStateInitial (m : Model) (state : Responses.State) : Model × Option Exn :=
  let unexpected : Exn :=
    .UnexpectedResponseReceived "Waiting for initial OK/BYE/PREAUTH, but got this instead"
  match state.kind with
  | .PREAUTH => (_updateState m .CONN_STATE_AUTH, none)
  | .OK =>
    let m1 := _updateState m .CONN_STATE_NOT_AUTH
    let m2 := _updateState m1 .CONN_STATE_LOGOUT
    (m2, some unexpected)
  | .BYE =>
    let m1 := _updateState m .CONN_STATE_LOGOUT
    (m1, some unexpected)
  | _ => (m, some unexpected)

/-- `Model::handleStateAuthenticated`: reads the tag and does nothing. -/
def handleStateAuthenticated (m : Model) (_state : Responses.State) : Model × Option Exn :=
  (m, none)

/-- `Model::handleStateSelecting`: empty body. -/
def handleStateSelecting (m : Model) (_state : Responses.State) : Model × Option Exn :=
  (m, none)

/-- `Model::handleStateSelected`: empty body. -/
def handleStateSelected (m : Model) (_state : Responses.State) : Model × Option Exn :=
  (m, none)

/-- `Model::handleList`: `_listResponses << *resp`. -/
def handleList (m : Model) (resp : Responses.List) : Model × Option Exn :=
  ({ m with _listResponses := m._listResponses ++ [resp] }, none)

/-! ## Library routines called by `_finalizeList`

`QString::compare( other, Qt::CaseInsensitive )` and `qSort( begin, end,
lessThan )` are Qt routines. They are embedded after Qt 4's
implementation (`ucstricmp` in qstring.cpp, `qSortHelper` in
qalgorithms.h), because what `_finalizeList` leaves in the tree is decided by
them. -/

/-- Case folding of one character: an ASCII capital becomes its small
letter, every other character is left alone. No proof below looks into this
definition; the evaluated examples use ASCII names. -/
def foldCase (c : Char) : Nat :=
  if 65 ≤ c.toNat ∧ c.toNat ≤ 90 then c.toNat + 32 else c.toNat

/-- Qt's `ucstricmp`: the difference of the first pair of characters that
differ after case folding; when one string is a prefix of the other, 0 for
equal lengths, -1 when the left one is shorter and 1 when it is longer.
`SortMailboxes` looks at the sign only. -/
def ucstricmp : List Char → List Char → Int
  | [], [] => 0
  | [], _ :: _ => -1
  | _ :: _, [] => 1
  | a :: as, b :: bs =>
    if foldCase a = foldCase b then ucstricmp as bs
    else (foldCase a : Int) - (foldCase b : Int)

/-- `QString::compare( other, Qt::CaseInsensitive )`. -/
def QString_compare (a b : QString) : Int :=
  ucstricmp a.chars b.chars

/-- `SortMailboxes( a, b )`: `a->mailbox().compare( b->mailbox(),
Qt::CaseInsensitive ) < 1`. -/
def SortMailboxes (a b : TreeItemMailbox) : Bool :=
  decide (QString_compare a._mailbox b._mailbox < 1)

section QSort
variable {α : Type}

/-- `qSwap( *i, *j )` on two positions of a range. -/
def qSwapAt (l : List α) (i j : Nat) : List α :=
  match l[i]?, l[j]? with
  | some x, some y => (l.set i y).set j x
  | _, _ => l

/-- `lessThan( *i, *j )` on two positions of a range. -/
def lessThanAt (lessThan : α → α → Bool) (l : List α) (i j : Nat) : Bool :=
  match l[i]?, l[j]? with
  | some x, some y => lessThan x y
  | _, _ => false

/-- `while (low < high && lessThan(*low, *end)) ++low;` with `e` the position
of `*end`; the first argument bounds the number of iterations. -/
def scanLow (lessThan : α → α → Bool) (l : List α) (e high : Nat) : Nat → Nat → Nat
  | 0, low => low
  | n + 1, low =>
    if decide (low < high) && lessThanAt lessThan l low e then
      scanLow lessThan l e high n (low + 1)
    else low

/-- `while (high > low && lessThan(*end, *high)) --high;` with `e` the
position of `*end`; the first argument bounds the number of iterations. -/
def scanHigh (lessThan : α → α → Bool) (l : List α) (e low : Nat) : Nat → Nat → Nat
  | 0, high => high
  | n + 1, high =>
    if decide (high > low) && lessThanAt lessThan l e high then
      scanHigh lessThan l e low n (high - 1)
    else high

/-- The partitioning loop `while (low < high) { ... }` of `qSortHelper`;
returns the range and the final `low`. The first argument bounds the number
of iterations. -/
def partitionLoop (lessThan : α → α → Bool) (e : Nat) :
    Nat → List α → Nat → Nat → List α × Nat
  | 0, l, low, _ => (l, low)
  | n + 1, l, low, high =>
    if low < high then
      let low1 := scanLow lessThan l e high (high - low) low
      let high1 := scanHigh lessThan l e low1 (high - low1) high
      if low1 < high1 then
        partitionLoop lessThan e n (qSwapAt l low1 high1) (low1 + 1) (high1 - 1)
      else (l, low1)
    else (l, low)

/-- Qt 4's `qSortHelper( start, end, t, lessThan )` on the range `l`
(`start` is position 0, `end` is `l.length`). The recursive call on
`[start, low)` and the `goto top` on `[low + 1, end)` become the two
recursive calls; the first argument bounds the recursion depth. -/
def qSortHelper (lessThan : α → α → Bool) : Nat → List α → List α
  | 0, l => l
  | fuel + 1, l =>
    let span := l.length
    if span < 2 then l else
    let e := span - 1
    let pivot := span / 2
    let l1 := if lessThanAt lessThan l e 0 then qSwapAt l e 0 else l
    if span = 2 then l1 else
    let l2 := if lessThanAt lessThan l1 pivot 0 then qSwapAt l1 pivot 0 else l1
    let l3 := if lessThanAt lessThan l2 e pivot then qSwapAt l2 e pivot else l2
    if span = 3 then l3 else
    let l4 := qSwapAt l3 pivot e
    let r := partitionLoop lessThan e span l4 0 (e - 1)
    let low := if lessThanAt lessThan r.1 r.2 e then r.2 + 1 else r.2
    let l5 := qSwapAt r.1 e low
    qSortHelper lessThan fuel (l5.take low) ++ (l5.drop low).take 1
      ++ qSortHelper lessThan fuel (l5.drop (low + 1))

/-- `qSort( begin, end, lessThan )` on a whole list. -/
def qSort (lessThan : α → α → Bool) (l : List α) : List α :=
  qSortHelper lessThan l.length l

end QSort

/-! ## Finalization of a LIST command and the dispatch of State responses -/

/-- The loop of `_finalizeList` over `_listResponses`: every response whose
mailbox differs from `mailboxPtr->mailbox() + mailboxPtr->separator()` gets a
node `new TreeItemMailbox( command->what, *it )`, whose pointer is appended
to `mailboxes`. -/
def collectMailboxes (what : Nat) :
    List Responses.List → List TreeItemMailbox → List Nat → List TreeItemMailbox × List Nat
  | [], heap, mailboxes => (heap, mailboxes)
  | it :: rest, heap, mailboxes =>
    if it.mailbox.chars ≠ (deref heap what)._mailbox.chars ++ (deref heap what)._separator.chars then
      collectMailboxes what rest (heap ++ [TreeItemMailbox.ofList what it])
        (mailboxes ++ [heap.length])
    else collectMailboxes what rest heap mailboxes

/-- Modelled from the spec: `TreeItem::setChildren` on the node `p` (defined
in the tree's own source file): the entire child sequence is replaced. -/
def setChildren (heap : List TreeItemMailbox) (p : Nat) (items : List Nat) :
    List TreeItemMailbox :=
  heap.set p { deref heap p with _children := items }

/-- `Model::_finalizeList( command )`. -/
def _finalizeList (m : Model) (command : Task) : Model :=
  let m1 := { m with _emitted := m._emitted ++ [Signal.layoutAboutToBeChanged] }
  let built := collectMailboxes command.what m1._listResponses m1._heap []
  let m2 := { m1 with _heap := built.1, _listResponses := [] }
  let mailboxes :=
    qSort (fun a b => SortMailboxes (deref m2._heap a) (deref m2._heap b)) built.2
  let m3 := { m2 with _heap := setChildren m2._heap command.what mailboxes }
  { m3 with _emitted := m3._emitted ++ [Signal.layoutChanged] }

/-- The first `switch` of `handleState`, on `resp->respCode`, for the codes
that do not throw: CAPABILITIES stores the payload when the downcast to a
string list succeeds, every other code does nothing. -/
def updateCapabilities (m : Model) (resp : Responses.State) : Model :=
  match resp.respCode, resp.respCodeData with
  | .CAPABILITIES, .stringList caps =>
    { m with _capabilities := caps, _capabilitiesFresh := true }
  | _, _ => m

/-- The `switch ( _state )` at the end of `handleState`. -/
def handleStateByState (m : Model) (resp : Responses.State) : Model × Option Exn :=
  match m._state with
  | .CONN_STATE_ESTABLISHED =>
    if resp.tag ≠ "" then
      (m, some (.UnexpectedResponseReceived
        "Received a tagged response when expecting server greeting"))
    else handleStateInitial m resp
  | .CONN_STATE_NOT_AUTH =>
    (m, some (.UnexpectedResponseReceived
      "Somehow we managed to get back to the IMAP_STATE_NOT_AUTH, which is rather confusing"))
  | .CONN_STATE_AUTH => handleStateAuthenticated m resp
  | .CONN_STATE_SELECTING => handleStateSelecting m resp
  | .CONN_STATE_SELECTED => handleStateSelected m resp
  | .CONN_STATE_LOGOUT =>
    (m, some (.UnexpectedResponseReceived
      "WTF, we're logged out, yet I just got this message"))

/-- `Model::handleState`. ALERT throws 42 at once; otherwise the capabilities
are refreshed, a non-empty tag is looked up in `_commandMap` (unknown tag:
throw; task NONE: throw 42; task LIST: finalize and return), and an untagged
response goes to the `switch` on `_state`. -/
def handleState (m : Model) (resp : Responses.State) : Model × Option Exn :=
  if resp.respCode = .ALERT then (m, some (.int 42))
  else
    let m1 := updateCapabilities m resp
    if resp.tag ≠ "" then
      match m1._commandMap.lookup resp.tag with
      | none => (m1, some (.UnexpectedResponseReceived "Unknown tag in tagged response"))
      | some command =>
        match command.kind with
        | .NONE => (m1, some (.int 42))
        | .LIST => (_finalizeList m1 command, none)
    else handleStateByState m1 resp

/-- The State responses of a list dispatched in arrival order; a dispatch
that throws leaves the session as it was at the throw and the next response
is dispatched from there. -/
def dispatchStates (m : Model) (resps : List Responses.State) : Model :=
  resps.foldl (fun s r => (handleState s r).1) m

/-- The payload of a Capabilities response code carried by a State response:
the code is CAPABILITIES and its data is a string list. -/
def capabilitiesOf (resp : Responses.State) : Option (List String) :=
  match resp.respCode, resp.respCodeData with
  | .CAPABILITIES, .stringList caps => some caps
  | _, _ => none

/-- The exception thrown for a tag that is not in `_commandMap`. -/
def unknownTag : Exn := .UnexpectedResponseReceived "Unknown tag in tagged response"

/-- A session with the tag A1 registered for a LIST of the root. -/
def sessionA1 : Model :=
  { Model.init with _commandMap := [("A1", { kind := .LIST, what := 0 })] }

/-- An untagged State response of the given kind with no response code. -/
def greeting (kind : Responses.Kind) : Responses.State :=
  { tag := "", kind := kind, respCode := .NONE, respCodeData := .null }

/-- A tagged OK completion with no response code. -/
def completion (tag : String) : Responses.State :=
  { tag := tag, kind := .OK, respCode := .NONE, respCodeData := .null }

/-- The exception `handleStateInitial` throws. -/
def unexpectedGreeting : Exn :=
  .UnexpectedResponseReceived "Waiting for initial OK/BYE/PREAUTH, but got this instead"

/-- A State response carrying a Capabilities code with the given payload. -/
def withCapabilities (tag : String) (kind : Responses.Kind) (caps : List String) :
    Responses.State :=
  { tag := tag, kind := kind, respCode := .CAPABILITIES, respCodeData := .stringList caps }

/-- The buffered LIST responses that finalization on the node `T` keeps:
those whose mailbox name differs from the name of `T` followed by its
separator. -/
def keptResponses (T : TreeItemMailbox) (buffer : List Responses.List) :
    List Responses.List :=
  buffer.filter (fun r => decide (r.mailbox.chars ≠ T._mailbox.chars ++ T._separator.chars))

/-- The child sequence of the node at `p`, as nodes. -/
def childrenOf (m : Model) (p : Nat) : List TreeItemMailbox :=
  (deref m._heap p)._children.map (deref m._heap)

/-- The names of the children of the node at `p`, in order. -/
def childNames (m : Model) (p : Nat) : List QString :=
  (childrenOf m p).map (fun c => c._mailbox)

/-- An untagged LIST response for the mailbox `name` with separator ".". -/
def listResponse (name : String) : Responses.List :=
  { mailbox := some name, separator := some "." }

/-- The session after `sessionA1` has received the untagged LIST responses
for INBOX, Sent and sent. -/
def inboxSentBuffered : Model :=
  (handleList (handleList (handleList sessionA1 (listResponse "INBOX")).1
    (listResponse "Sent")).1 (listResponse "sent")).1

/-- The session after `inboxSentBuffered` has received the completion tagged
A1. -/
def inboxSentSession : Model :=
  (handleState inboxSentBuffered (completion "A1")).1

/-- A session whose tree holds the root and a mailbox INBOX with separator
".", and whose buffer holds the LIST responses "INBOX.", "INBOX.b",
"INBOX.A" and "INBOX.a". -/
def inboxChildrenSession : Model :=
  { Model.init with
    _heap := [{ TreeItemMailbox.new none with _children := [1] },
      TreeItemMailbox.ofList 0 (listResponse "INBOX")],
    _listResponses := [listResponse "INBOX.", listResponse "INBOX.b", listResponse "INBOX.A",
      listResponse "INBOX.a"] }

/-! ## The other response handlers, the dispatch and the LIST request -/

/-- Modelled from the spec: the payloads of the responses other than `State`
and `List`; their classes are declared in the response header and no handler
reads their contents. -/
structure Capability where
  capabilities : List String
  deriving DecidableEq, Repr

/-- Modelled from the spec: a `NumberResponse` (such as EXISTS or RECENT). -/
structure NumberResponse where
  number : Nat
  deriving DecidableEq, Repr

/-- Modelled from the spec: a `Flags` response. -/
structure Flags where
  flags : List String
  deriving DecidableEq, Repr

/-- Modelled from the spec: a `Search` response. -/
structure Search where
  items : List Nat
  deriving DecidableEq, Repr

/-- Modelled from the spec: a `Status` response. -/
structure Status where
  mailbox : QString
  deriving DecidableEq, Repr

/-- Modelled from the spec: a `Fetch` response. -/
structure Fetch where
  number : Nat
  deriving DecidableEq, Repr

/-- Modelled from the spec: a `Namespace` response. -/
structure Namespace where
  personal : List String
  deriving DecidableEq, Repr

/-- Modelled from the spec: the tagged union `ServerResponse` of the responses
the parser hands over (`AbstractResponse` and its subclasses). -/
inductive AbstractResponse where
  | state (resp : Responses.State)
  | capability (resp : Capability)
  | numberResponse (resp : NumberResponse)
  | list (resp : Responses.List)
  | flags (resp : Flags)
  | search (resp : Search)
  | status (resp : Status)
  | fetch (resp : Fetch)
  | namespaceResponse (resp : Namespace)
  deriving DecidableEq, Repr

/-- `Model::handleCapability`: empty body. -/
def handleCapability (m : Model) (_resp : Capability) : Model × Option Exn :=
  (m, none)

/-- `Model::handleNumberResponse`: empty body. -/
def handleNumberResponse (m : Model) (_resp : NumberResponse) : Model × Option Exn :=
  (m, none)

/-- `Model::handleFlags`: empty body. -/
def handleFlags (m : Model) (_resp : Flags) : Model × Option Exn :=
  (m, none)

/-- `Model::handleSearch`. -/
def handleSearch (m : Model) (_resp : Search) : Model × Option Exn :=
  (m, some (.UnexpectedResponseReceived "SEARCH reply, wtf?"))

/-- `Model::handleStatus`. -/
def handleStatus (m : Model) (_resp : Status) : Model × Option Exn :=
  (m, some (.UnexpectedResponseReceived "STATUS reply, wtf?"))

/-- `Model::handleFetch`. -/
def handleFetch (m : Model) (_resp : Fetch) : Model × Option Exn :=
  (m, some (.UnexpectedResponseReceived "FETCH reply, wtf?"))

/-- `Model::handleNamespace`. -/
def handleNamespace (m : Model) (_resp : Namespace) : Model × Option Exn :=
  (m, some (.UnexpectedResponseReceived "NAMESPACE reply, wtf?"))

/-- Modelled from the spec: `resp->plug( _parser, this )`, the dispatch of one
response to the handler of its kind (the `plug` methods are defined with the
response classes). -/
def plug (m : Model) : AbstractResponse → Model × Option Exn
  | .state resp => handleState m resp
  | .capability resp => handleCapability m resp
  | .numberResponse resp => handleNumberResponse m resp
  | .list resp => handleList m resp
  | .flags resp => handleFlags m resp
  | .search resp => handleSearch m resp
  | .status resp => handleStatus m resp
  | .fetch resp => handleFetch m resp
  | .namespaceResponse resp => handleNamespace m resp

/-- Responses dispatched in arrival order; a dispatch that throws leaves the
session as it was at the throw and the next response is dispatched from
there. -/
def dispatchAll (m : Model) (resps : List AbstractResponse) : Model :=
  resps.foldl (fun s r => (plug s r).1) m

/-- Modelled from the spec: the command issuer behind `_parser`. It records
the LIST commands sent, as pairs of reference and pattern, and hands out
tags; which tag it hands out is its own business, here any function of what
was sent before. -/
structure Parser where
  sent : List (String × String)
  tagFor : List (String × String) → String

/-- Modelled from the spec: `_parser->list( reference, mailbox )` sends one
LIST command and returns its tag. -/
def Parser.list (parser : Parser) (reference mailbox : String) : String × Parser :=
  (parser.tagFor parser.sent, { parser with sent := parser.sent ++ [(reference, mailbox)] })

/-- `_commandMap[ cmd ] = task` on the `QMap`: the key gets the task, in
place of an entry it may have had. -/
def commandMapAssign (map : List (String × Task)) (cmd : String) (task : Task) :
    List (String × Task) :=
  (cmd, task) :: map.filter (fun entry => decide (entry.1 ≠ cmd))

/-- `Model::_askForChildrenOfMailbox( item )`: the pattern is "%" for a null
mailbox name and the name followed by ".%" otherwise (`"%1.%"` with the name
as argument); the LIST command is sent with an empty reference and the task
is stored under the tag returned. -/
def _askForChildrenOfMailbox (parser : Parser) (m : Model) (item : Nat) : Parser × Model :=
  let mailbox : String :=
    match (deref m._heap item)._mailbox with
    | none => "%"
    | some name => name ++ ".%"
  let issued := parser.list "" mailbox
  (issued.2,
    { m with _commandMap := commandMapAssign m._commandMap issued.1 { kind := .LIST, what := item } })

/-- The sessions at the program points of `_finalizeList`, in order: after
`emit layoutAboutToBeChanged()`, after the loop and `_listResponses.clear()`,
after `qSort` and `setChildren`, after `emit layoutChanged()`. -/
def _finalizeListTrace (m : Model) (command : Task) : List Model :=
  let m1 := { m with _emitted := m._emitted ++ [Signal.layoutAboutToBeChanged] }
  let built := collectMailboxes command.what m1._listResponses m1._heap []
  let m2 := { m1 with _heap := built.1, _listResponses := [] }
  let mailboxes :=
    qSort (fun a b => SortMailboxes (deref m2._heap a) (deref m2._heap b)) built.2
  let m3 := { m2 with _heap := setChildren m2._heap command.what mailboxes }
  let m4 := { m3 with _emitted := m3._emitted ++ [Signal.layoutChanged] }
  [m1, m2, m3, m4]

/-- A session in state LOGOUT with the tag A1 registered for a LIST of the
root. -/
def logoutSessionA1 : Model :=
  { sessionA1 with _state := .CONN_STATE_LOGOUT }

/-- A command issuer that has sent nothing and hands out the tag A1 every
time. -/
def parserA1 : Parser :=
  { sent := [], tagFor := fun _ => "A1" }

/-- A session in state ESTABLISHED whose tree holds the root and a mailbox
INBOX, with the tag A1 registered for a LIST of the root. -/
def inboxSessionA1 : Model :=
  { inboxChildrenSession with _commandMap := [("A1", { kind := .LIST, what := 0 })] }

/-- The case-folded name of a mailbox node. -/
def foldedName (a : TreeItemMailbox) : List Nat :=
  a._mailbox.chars.map foldCase

/-- In the words of the comparison claim: the name of `a` compares less than
or equal to the name of `b` ignoring case, that is, the case-folded names are
in lexicographic order or equal. -/
def nameLeIgnoringCase (a b : TreeItemMailbox) : Prop :=
  List.Lex (fun x y => x < y) (foldedName a) (foldedName b) ∨ foldedName a = foldedName b

/-- In the words of the comparison claim: the two names are equal ignoring
case. -/
def nameEqIgnoringCase (a b : TreeItemMailbox) : Prop :=
  foldedName a = foldedName b

/-- A session whose tree holds the root and a mailbox INBOX with separator
".", and whose buffer holds the LIST responses "INBOX." and "inbox.": the
first is the echo of the target, the second has the same name ignoring
case. -/
def inboxEchoSession : Model :=
  { inboxChildrenSession with
    _listResponses := [listResponse "INBOX.", listResponse "inbox."] }

/-! ## Frame lemmas -/

theorem updateCapabilities_state (m : Model) (resp : Responses.State) :
    (updateCapabilities m resp)._state = m._state := by
  unfold updateCapabilities; split <;> rfl

theorem updateCapabilities_commandMap (m : Model) (resp : Responses.State) :
    (updateCapabilities m resp)._commandMap = m._commandMap := by
  unfold updateCapabilities; split <;> rfl

theorem updateCapabilities_listResponses (m : Model) (resp : Responses.State) :
    (updateCapabilities m resp)._listResponses = m._listResponses := by
  unfold updateCapabilities; split <;> rfl

theorem updateCapabilities_heap (m : Model) (resp : Responses.State) :
    (updateCapabilities m resp)._heap = m._heap := by
  unfold updateCapabilities; split <;> rfl

theorem finalizeList_state (m : Model) (command : Task) :
    (_finalizeList m command)._state = m._state := rfl

theorem finalizeList_commandMap (m : Model) (command : Task) :
    (_finalizeList m command)._commandMap = m._commandMap := rfl

theorem finalizeList_capabilities (m : Model) (command : Task) :
    (_finalizeList m command)._capabilities = m._capabilities ∧
      (_finalizeList m command)._capabilitiesFresh = m._capabilitiesFresh := ⟨rfl, rfl⟩

theorem handleStateInitial_commandMap (m : Model) (resp : Responses.State) :
    (handleStateInitial m resp).1._commandMap = m._commandMap := by
  unfold handleStateInitial; split <;> rfl

theorem handleStateInitial_capabilities (m : Model) (resp : Responses.State) :
    (handleStateInitial m resp).1._capabilities = m._capabilities ∧
      (handleStateInitial m resp).1._capabilitiesFresh = m._capabilitiesFresh := by
  unfold handleStateInitial; split <;> exact ⟨rfl, rfl⟩

theorem handleStateByState_commandMap (m : Model) (resp : Responses.State) :
    (handleStateByState m resp).1._commandMap = m._commandMap := by
  unfold handleStateByState
  split
  · split
    · rfl
    · exact handleStateInitial_commandMap m resp
  all_goals rfl

theorem handleStateByState_capabilities (m : Model) (resp : Responses.State) :
    (handleStateByState m resp).1._capabilities = m._capabilities ∧
      (handleStateByState m resp).1._capabilitiesFresh = m._capabilitiesFresh := by
  unfold handleStateByState
  split
  · split
    · exact ⟨rfl, rfl⟩
    · exact handleStateInitial_capabilities m resp
  all_goals exact ⟨rfl, rfl⟩

/-- No path through `handleState` writes to `_commandMap`. -/
theorem handleState_commandMap (m : Model) (resp : Responses.State) :
    (handleState m resp).1._commandMap = m._commandMap := by
  unfold handleState
  split
  · rfl
  · simp only []
    split
    · split
      · exact updateCapabilities_commandMap m resp
      · split
        · exact updateCapabilities_commandMap m resp
        · rw [finalizeList_commandMap]; exact updateCapabilities_commandMap m resp
    · rw [handleStateByState_commandMap]; exact updateCapabilities_commandMap m resp

/-- After `handleState` the capability cache and its flag are those the first
`switch` left: the payload of the response when it carries one, the old
values otherwise. -/
theorem handleState_capabilities (m : Model) (resp : Responses.State) :
    ((handleState m resp).1._capabilities, (handleState m resp).1._capabilitiesFresh) =
      match capabilitiesOf resp with
      | some caps => (caps, true)
      | none => (m._capabilities, m._capabilitiesFresh) := by
  have hup : ((updateCapabilities m resp)._capabilities,
      (updateCapabilities m resp)._capabilitiesFresh) =
      match capabilitiesOf resp with
      | some caps => (caps, true)
      | none => (m._capabilities, m._capabilitiesFresh) := by
    unfold updateCapabilities capabilitiesOf
    split <;> simp_all
  unfold handleState
  split
  · rename_i h
    have : capabilitiesOf resp = none := by
      unfold capabilitiesOf; split <;> simp_all
    rw [this]
  · simp only []
    split
    · split
      · exact hup
      · split
        · exact hup
        · rw [(finalizeList_capabilities _ _).1, (finalizeList_capabilities _ _).2]; exact hup
    · rw [(handleStateByState_capabilities _ _).1, (handleStateByState_capabilities _ _).2]
      exact hup

/-! ## The greeting in state ESTABLISHED -/

/-- C1 (code bug): in state ESTABLISHED an untagged OK greeting with no
response code does not leave the session in NOT_AUTH: the OK case of
`handleStateInitial` has no `break`, so the state is overwritten with LOGOUT
and the exception of the `default` case is thrown. -/
theorem handleState_greeting_ok_throws (m : Model) :
    handleState { m with _state := .CONN_STATE_ESTABLISHED } (greeting .OK) =
      ({ m with _state := .CONN_STATE_LOGOUT }, some unexpectedGreeting) := by
  rfl

/-- C10 (code bug): in state ESTABLISHED an untagged BYE greeting with no
response code sets the state to LOGOUT and then throws: the BYE case of
`handleStateInitial` has no `break` and runs into `default`. -/
theorem handleState_greeting_bye_throws (m : Model) :
    handleState { m with _state := .CONN_STATE_ESTABLISHED } (greeting .BYE) =
      ({ m with _state := .CONN_STATE_LOGOUT }, some unexpectedGreeting) := by
  rfl

/-- C2 (code bug): a dispatch that throws can change the connection state:
on a fresh session the OK greeting throws and leaves LOGOUT where
ESTABLISHED was. -/
theorem handleState_throw_changes_state :
    (handleState Model.init (greeting .OK)).2 = some unexpectedGreeting ∧
      Model.init._state = .CONN_STATE_ESTABLISHED ∧
      (handleState Model.init (greeting .OK)).1._state = .CONN_STATE_LOGOUT := by
  decide

/-- Apart from the OK and BYE greetings in state ESTABLISHED, a dispatch that
throws leaves the connection state as it was. -/
theorem handleState_throw_state (m : Model) (resp : Responses.State)
    (hthrow : (handleState m resp).2 ≠ none)
    (hnot : ¬ (m._state = .CONN_STATE_ESTABLISHED ∧ resp.tag = "" ∧
      (resp.kind = .OK ∨ resp.kind = .BYE))) :
    (handleState m resp).1._state = m._state := by
  unfold handleState at hthrow ⊢
  split
  · rfl
  · rename_i hcode
    rw [if_neg hcode] at hthrow
    simp only [] at hthrow ⊢
    split
    · rename_i htag
      rw [if_pos htag] at hthrow
      split
      · exact updateCapabilities_state m resp
      · split
        · exact updateCapabilities_state m resp
        · rw [finalizeList_state]; exact updateCapabilities_state m resp
    · rename_i htag
      have hs := updateCapabilities_state m resp
      rw [if_neg htag] at hthrow
      generalize updateCapabilities m resp = m1 at hs hthrow ⊢
      rw [← hs] at hnot ⊢
      have htag2 : resp.tag = "" := not_not.mp htag
      unfold handleStateByState at hthrow ⊢
      cases hst : m1._state
      case CONN_STATE_ESTABLISHED =>
        rw [hst] at hthrow
        simp only [if_neg htag] at hthrow ⊢
        unfold handleStateInitial at hthrow ⊢
        cases hk : resp.kind
        case PREAUTH => rw [hk] at hthrow; simp at hthrow
        case OK => exact absurd ⟨hst, htag2, Or.inl hk⟩ hnot
        case BYE => exact absurd ⟨hst, htag2, Or.inr hk⟩ hnot
        all_goals exact hst
      all_goals exact hst

/-! ## Tagged responses -/

/-- With a response code other than ALERT, a non-empty tag that is not in
`_commandMap` makes `handleState` throw the unknown-tag exception, in every
connection state. -/
theorem handleState_unknown_tag (m : Model) (resp : Responses.State)
    (hcode : resp.respCode ≠ .ALERT) (htag : resp.tag ≠ "")
    (habsent : m._commandMap.lookup resp.tag = none) :
    (handleState m resp).2 = some unknownTag := by
  unfold handleState
  rw [if_neg hcode]
  simp only []
  rw [if_pos htag, updateCapabilities_commandMap, habsent]
  rfl

/-- C3 (code bug): a State response carrying ALERT makes `handleState` throw
42 before the tag is looked at, so a tag that is not in `_commandMap` does not
get the unknown-tag exception. -/
theorem handleState_alert_unknown_tag (m : Model) (tag : String) (kind : Responses.Kind)
    (data : Responses.RespCodeData) :
    (handleState m { tag := tag, kind := kind, respCode := .ALERT, respCodeData := data }).2
        = some (.int 42) ∧
      (handleState m { tag := tag, kind := kind, respCode := .ALERT, respCodeData := data }).2
        ≠ some unknownTag := by
  constructor
  · rfl
  · simp [handleState, unknownTag]

/-- C9 (code bug): an ALERT response code aborts the dispatch. The PREAUTH
greeting with no code moves an ESTABLISHED session to AUTH without throwing;
the same greeting carrying ALERT throws 42 and the state stays ESTABLISHED. -/
theorem handleState_alert_aborts (m : Model) (data : Responses.RespCodeData) :
    handleState { m with _state := .CONN_STATE_ESTABLISHED } (greeting .PREAUTH) =
        ({ m with _state := .CONN_STATE_AUTH }, none) ∧
      handleState { m with _state := .CONN_STATE_ESTABLISHED }
          { greeting .PREAUTH with respCode := .ALERT, respCodeData := data } =
        ({ m with _state := .CONN_STATE_ESTABLISHED }, some (.int 42)) := by
  constructor <;> rfl

/-- C6 (counterexample): after the completion tagged A1 has been dispatched
the tag A1 is still a key of `_commandMap`, and a second completion with that
tag is finalized again instead of raising the unknown-tag exception. -/
theorem handleState_keeps_tag_example :
    (handleState sessionA1 (completion "A1")).2 = none ∧
      (handleState sessionA1 (completion "A1")).1._commandMap.lookup "A1"
        = some { kind := .LIST, what := 0 } ∧
      (handleState (handleState sessionA1 (completion "A1")).1 (completion "A1")).2 = none := by
  decide

/-- C6 (amended): a tag that is a key of `_commandMap` when a State response
carrying it is dispatched is still a key, with the same entry, afterwards, so
a second response with the same tag does not raise the unknown-tag
exception. -/
theorem handleState_keeps_tag (m : Model) (resp : Responses.State) (task : Task)
    (hkey : m._commandMap.lookup resp.tag = some task) :
    (handleState m resp).1._commandMap.lookup resp.tag = some task ∧
      (handleState (handleState m resp).1 resp).2 ≠ some unknownTag := by
  have hmap := handleState_commandMap m resp
  refine ⟨by rw [hmap]; exact hkey, ?_⟩
  have hkey2 : (handleState m resp).1._commandMap.lookup resp.tag = some task := by
    rw [hmap]; exact hkey
  generalize (handleState m resp).1 = m2 at hkey2
  unfold handleState
  split
  · simp [unknownTag]
  · simp only []
    split
    · rw [updateCapabilities_commandMap, hkey2]
      simp only []
      split <;> simp [unknownTag]
    · unfold handleStateByState
      split
      · rw [if_neg (by assumption)]
        unfold handleStateInitial
        split <;> simp [unknownTag]
      all_goals simp [unknownTag, handleStateAuthenticated, handleStateSelecting,
        handleStateSelected]

/-- Witness for C6 (amended), at the session with A1 registered. -/
theorem handleState_keeps_tag_witness :
    sessionA1._commandMap.lookup (completion "A1").tag = some { kind := .LIST, what := 0 } ∧
      ((handleState sessionA1 (completion "A1")).1._commandMap.lookup (completion "A1").tag
          = some { kind := .LIST, what := 0 } ∧
        (handleState (handleState sessionA1 (completion "A1")).1 (completion "A1")).2
          ≠ some unknownTag) :=
  ⟨by decide, handleState_keeps_tag sessionA1 (completion "A1") _ (by decide)⟩

/-- C7: in every connection state, a tagged State response whose code is not
ALERT and whose tag is registered for a LIST of `T` is finalized on `T` with
the buffer as it stands, returns without throwing and leaves the connection
state as it was; the switch on the state is not reached. -/
theorem handleState_tagged_list (m : Model) (resp : Responses.State) (T : Nat)
    (hcode : resp.respCode ≠ .ALERT) (htag : resp.tag ≠ "")
    (hkey : m._commandMap.lookup resp.tag = some { kind := .LIST, what := T }) :
    handleState m resp
        = (_finalizeList (updateCapabilities m resp) { kind := .LIST, what := T }, none) ∧
      (updateCapabilities m resp)._listResponses = m._listResponses ∧
      (updateCapabilities m resp)._heap = m._heap ∧
      (handleState m resp).1._state = m._state := by
  have h : handleState m resp
      = (_finalizeList (updateCapabilities m resp) { kind := .LIST, what := T }, none) := by
    unfold handleState
    rw [if_neg hcode]
    simp only []
    rw [if_pos htag, updateCapabilities_commandMap, hkey]
  refine ⟨h, updateCapabilities_listResponses m resp, updateCapabilities_heap m resp, ?_⟩
  rw [h]
  exact updateCapabilities_state m resp

/-- Witness for C7: a session in state LOGOUT with A1 registered for a LIST
of the root, completed by a tagged response that carries capabilities. -/
theorem handleState_tagged_list_witness :
    handleState { sessionA1 with _state := .CONN_STATE_LOGOUT }
          (withCapabilities "A1" .OK ["IMAP4rev1"])
        = (_finalizeList (updateCapabilities { sessionA1 with _state := .CONN_STATE_LOGOUT }
            (withCapabilities "A1" .OK ["IMAP4rev1"])) { kind := .LIST, what := 0 }, none) ∧
      (updateCapabilities { sessionA1 with _state := .CONN_STATE_LOGOUT }
          (withCapabilities "A1" .OK ["IMAP4rev1"]))._listResponses
        = ({ sessionA1 with _state := .CONN_STATE_LOGOUT } : Model)._listResponses ∧
      (updateCapabilities { sessionA1 with _state := .CONN_STATE_LOGOUT }
          (withCapabilities "A1" .OK ["IMAP4rev1"]))._heap
        = ({ sessionA1 with _state := .CONN_STATE_LOGOUT } : Model)._heap ∧
      (handleState { sessionA1 with _state := .CONN_STATE_LOGOUT }
          (withCapabilities "A1" .OK ["IMAP4rev1"])).1._state = .CONN_STATE_LOGOUT :=
  handleState_tagged_list { sessionA1 with _state := .CONN_STATE_LOGOUT }
    (withCapabilities "A1" .OK ["IMAP4rev1"]) 0 (by decide) (by decide) (by decide)

/-! ## The capability cache -/

theorem dispatchStates_cons (m : Model) (r : Responses.State) (rs : List Responses.State) :
    dispatchStates m (r :: rs) = dispatchStates (handleState m r).1 rs := rfl

/-- C8: after any sequence of State responses dispatched in arrival order
from any session, whether or not single dispatches throw, the capability
cache is the payload of the last response that carried a Capabilities code
and the freshness flag is true; when no response carried one, the cache and
the flag are those of the initial session. The same holds for one dispatch:
a response without a Capabilities payload leaves both unchanged. -/
theorem dispatchStates_capabilities (m : Model) (resps : List Responses.State)
    (r : Responses.State) :
    (((dispatchStates m resps)._capabilities, (dispatchStates m resps)._capabilitiesFresh) =
      match (resps.filterMap capabilitiesOf).getLast? with
      | some caps => (caps, true)
      | none => (m._capabilities, m._capabilitiesFresh)) ∧
    (((handleState m r).1._capabilities, (handleState m r).1._capabilitiesFresh) =
      match capabilitiesOf r with
      | some caps => (caps, true)
      | none => (m._capabilities, m._capabilitiesFresh)) := by
  refine ⟨?_, handleState_capabilities m r⟩
  induction resps generalizing m with
  | nil => rfl
  | cons x xs ih =>
    rw [dispatchStates_cons, ih (handleState m x).1, handleState_capabilities m x]
    cases hx : capabilitiesOf x with
    | none => simp [List.filterMap_cons, hx]
    | some c =>
      simp only [List.filterMap_cons, hx]
      cases hl : (xs.filterMap capabilitiesOf).getLast? with
      | none =>
        have : xs.filterMap capabilitiesOf = [] := List.getLast?_eq_none_iff.mp hl
        simp [this]
      | some d =>
        have hne : xs.filterMap capabilitiesOf ≠ [] := by
          intro h; rw [h] at hl; simp at hl
        obtain ⟨y, ys, hys⟩ := List.exists_cons_of_ne_nil hne
        rw [hys] at hl ⊢
        rw [List.getLast?_cons_cons, hl]

/-! ## Correctness of `qSort` for a total, transitive comparison -/

section QSortProofs
variable {α : Type}

theorem cons_set_perm (a y : α) : ∀ (t : List α) (j : Nat), t[j]? = some y →
    (y :: t.set j a).Perm (a :: t)
  | [], j, h => by simp at h
  | b :: t, 0, h => by
    simp at h
    subst h
    exact List.Perm.swap _ _ _
  | b :: t, j + 1, h => by
    simp at h
    have ih := cons_set_perm a y t j h
    exact (List.Perm.swap _ _ _).trans ((ih.cons b).trans (List.Perm.swap _ _ _))

theorem set_set_perm_of_get (x y : α) : ∀ (l : List α) (i j : Nat),
    l[i]? = some x → l[j]? = some y → ((l.set i y).set j x).Perm l
  | [], i, _, h, _ => by simp at h
  | a :: t, 0, 0, hi, hj => by
    simp at hi hj
    subst hi
    simp
  | a :: t, 0, j + 1, hi, hj => by
    simp at hi hj
    subst hi
    simpa using cons_set_perm a y t j hj
  | a :: t, i + 1, 0, hi, hj => by
    simp at hi hj
    subst hj
    simpa using cons_set_perm a x t i hi
  | a :: t, i + 1, j + 1, hi, hj => by
    simp at hi hj
    simpa using set_set_perm_of_get x y t i j hi hj

theorem qSwapAt_perm (l : List α) (i j : Nat) : (qSwapAt l i j).Perm l := by
  unfold qSwapAt
  split
  · rename_i x y hi hj
    exact set_set_perm_of_get x y l i j hi hj
  · exact List.Perm.refl _

theorem qSwapAt_length (l : List α) (i j : Nat) : (qSwapAt l i j).length = l.length :=
  (qSwapAt_perm l i j).length_eq

/-- The entries of a range after a swap of two valid positions. -/
theorem qSwapAt_getElem? (l : List α) (i j k : Nat) (x y : α)
    (hi : l[i]? = some x) (hj : l[j]? = some y) :
    (qSwapAt l i j)[k]? = if k = j then some x else if k = i then some y else l[k]? := by
  have hil : i < l.length := (List.getElem?_eq_some_iff.mp hi).1
  have hjl : j < l.length := (List.getElem?_eq_some_iff.mp hj).1
  unfold qSwapAt
  rw [hi, hj]
  simp only [List.getElem?_set, List.length_set]
  by_cases hkj : k = j
  · subst hkj; simp [hjl]
  · by_cases hki : k = i
    · subst hki; simp [hil, Ne.symm hkj, hkj]
    · simp [hkj, hki, Ne.symm hkj, Ne.symm hki]

theorem lessThanAt_true {lessThan : α → α → Bool} {l : List α} {i j : Nat}
    (h : lessThanAt lessThan l i j = true) :
    ∃ x y, l[i]? = some x ∧ l[j]? = some y ∧ lessThan x y = true := by
  unfold lessThanAt at h
  split at h
  · rename_i x y hi hj
    exact ⟨x, y, hi, hj, h⟩
  · simp at h

theorem lessThanAt_eq {lessThan : α → α → Bool} {l : List α} {i j : Nat} {x y : α}
    (hi : l[i]? = some x) (hj : l[j]? = some y) :
    lessThanAt lessThan l i j = lessThan x y := by
  unfold lessThanAt
  rw [hi, hj]

/-- What the first inner loop establishes. -/
theorem scanLow_spec (lessThan : α → α → Bool) (l : List α) (e high : Nat) :
    ∀ (n low : Nat), low ≤ high → high - low ≤ n →
      low ≤ scanLow lessThan l e high n low ∧ scanLow lessThan l e high n low ≤ high ∧
      (∀ k, low ≤ k → k < scanLow lessThan l e high n low → lessThanAt lessThan l k e = true) ∧
      (scanLow lessThan l e high n low < high →
        lessThanAt lessThan l (scanLow lessThan l e high n low) e = false)
  | 0, low, h1, h2 => by
    have : low = high := by omega
    subst this
    simp only [scanLow]
    exact ⟨Nat.le_refl _, Nat.le_refl _, fun k hk hk2 => by omega, fun h => by omega⟩
  | n + 1, low, h1, h2 => by
    simp only [scanLow]
    split
    · rename_i hc
      simp only [Bool.and_eq_true, decide_eq_true_eq] at hc
      obtain ⟨a, b, c, d⟩ := scanLow_spec lessThan l e high n (low + 1) (by omega) (by omega)
      refine ⟨by omega, b, ?_, d⟩
      intro k hk hk2
      by_cases hkl : k = low
      · subst hkl; exact hc.2
      · exact c k (by omega) hk2
    · rename_i hc
      simp only [Bool.and_eq_true, decide_eq_true_eq, not_and, Bool.not_eq_true] at hc
      exact ⟨Nat.le_refl _, h1, fun k hk hk2 => by omega, hc⟩

/-- What the second inner loop establishes. -/
theorem scanHigh_spec (lessThan : α → α → Bool) (l : List α) (e low : Nat) :
    ∀ (n high : Nat), low ≤ high → high - low ≤ n →
      low ≤ scanHigh lessThan l e low n high ∧ scanHigh lessThan l e low n high ≤ high ∧
      (∀ k, scanHigh lessThan l e low n high < k → k ≤ high →
        lessThanAt lessThan l e k = true) ∧
      (low < scanHigh lessThan l e low n high →
        lessThanAt lessThan l e (scanHigh lessThan l e low n high) = false)
  | 0, high, h1, h2 => by
    have : low = high := by omega
    subst this
    simp only [scanHigh]
    exact ⟨Nat.le_refl _, Nat.le_refl _, fun k hk hk2 => by omega, fun h => by omega⟩
  | n + 1, high, h1, h2 => by
    simp only [scanHigh]
    split
    · rename_i hc
      simp only [Bool.and_eq_true, decide_eq_true_eq] at hc
      obtain ⟨a, b, c, d⟩ := scanHigh_spec lessThan l e low n (high - 1) (by omega) (by omega)
      refine ⟨a, by omega, ?_, d⟩
      intro k hk hk2
      by_cases hkl : k = high
      · subst hkl; exact hc.2
      · exact c k hk (by omega)
    · rename_i hc
      simp only [Bool.and_eq_true, decide_eq_true_eq, not_and, Bool.not_eq_true] at hc
      exact ⟨h1, Nat.le_refl _, fun k hk hk2 => by omega, hc⟩

/-- The partitioning loop keeps the pivot at position `e`, leaves only
entries not above the pivot before the returned `low` and only entries not
below it between `low` and `e`. -/
theorem partitionLoop_spec (le : α → α → Bool)
    (htotal : ∀ a b, le a b = true ∨ le b a = true) (e : Nat) (p : α) :
    ∀ (n : Nat) (l : List α) (low high : Nat),
      l[e]? = some p → low < e → high < e → high < low + n →
      (∀ k x, k < low → l[k]? = some x → le x p = true) →
      (∀ k x, high < k → k < e → l[k]? = some x → le p x = true) →
      (partitionLoop le e n l low high).1.Perm l ∧
      (partitionLoop le e n l low high).1[e]? = some p ∧
      (partitionLoop le e n l low high).2 < e ∧
      (∀ k x, k < (partitionLoop le e n l low high).2 →
        (partitionLoop le e n l low high).1[k]? = some x → le x p = true) ∧
      (∀ k x, (partitionLoop le e n l low high).2 < k → k < e →
        (partitionLoop le e n l low high).1[k]? = some x → le p x = true)
  | 0, l, low, high, he, hlow, _, hfuel, hleft, hright => by
    simp only [partitionLoop]
    exact ⟨List.Perm.refl _, he, hlow, hleft, fun k x h1 h2 => hright k x (by omega) h2⟩
  | n + 1, l, low, high, he, hlow, hhigh, hfuel, hleft, hright => by
    simp only [partitionLoop]
    split
    · rename_i hlt
      obtain ⟨a1, a2, a3, a4⟩ :=
        scanLow_spec le l e high (high - low) low (Nat.le_of_lt hlt) (Nat.le_refl _)
      generalize scanLow le l e high (high - low) low = low1 at a1 a2 a3 a4 ⊢
      obtain ⟨b1, b2, b3, b4⟩ :=
        scanHigh_spec le l e low1 (high - low1) high a2 (Nat.le_refl _)
      generalize scanHigh le l e low1 (high - low1) high = high1 at b1 b2 b3 b4 ⊢
      have helen : e < l.length := (List.getElem?_eq_some_iff.mp he).1
      have hleft1 : ∀ k x, k < low1 → l[k]? = some x → le x p = true := by
        intro k x hk hx
        by_cases hkl : k < low
        · exact hleft k x hkl hx
        · have := a3 k (by omega) hk
          rw [lessThanAt_eq hx he] at this
          exact this
      have hright1 : ∀ k x, high1 < k → k < e → l[k]? = some x → le p x = true := by
        intro k x hk hke hx
        by_cases hkl : high < k
        · exact hright k x hkl hke hx
        · have := b3 k hk (by omega)
          rw [lessThanAt_eq he hx] at this
          exact this
      split
      · rename_i hlt1
        have hl1 : low1 < l.length := by omega
        have hh1 : high1 < l.length := by omega
        obtain ⟨x0, hx0⟩ : ∃ x0, l[low1]? = some x0 := ⟨_, List.getElem?_eq_getElem hl1⟩
        obtain ⟨y0, hy0⟩ : ∃ y0, l[high1]? = some y0 := ⟨_, List.getElem?_eq_getElem hh1⟩
        have hx0p : le p x0 = true := by
          have := a4 (by omega)
          rw [lessThanAt_eq hx0 he] at this
          rcases htotal x0 p with h | h
          · rw [h] at this; cases this
          · exact h
        have hy0p : le y0 p = true := by
          have := b4 hlt1
          rw [lessThanAt_eq he hy0] at this
          rcases htotal p y0 with h | h
          · rw [h] at this; cases this
          · exact h
        have hget := fun k => qSwapAt_getElem? l low1 high1 k x0 y0 hx0 hy0
        obtain ⟨c1, c2, c3, c4, c5⟩ := partitionLoop_spec le htotal e p n
          (qSwapAt l low1 high1) (low1 + 1) (high1 - 1)
          (by rw [hget, if_neg (by omega), if_neg (by omega)]; exact he)
          (by omega) (by omega) (by omega)
          (by
            intro k x hk hx
            rw [hget] at hx
            by_cases hk1 : k = low1
            · subst hk1
              rw [if_neg (by omega), if_pos rfl] at hx
              cases hx
              exact hy0p
            · rw [if_neg (by omega), if_neg hk1] at hx
              exact hleft1 k x (by omega) hx)
          (by
            intro k x hk hke hx
            rw [hget] at hx
            by_cases hk1 : k = high1
            · subst hk1
              rw [if_pos rfl] at hx
              cases hx
              exact hx0p
            · rw [if_neg hk1, if_neg (by omega)] at hx
              exact hright1 k x (by omega) hke hx)
        exact ⟨c1.trans (qSwapAt_perm l low1 high1), c2, c3, c4, c5⟩
      · rename_i hge
        exact ⟨List.Perm.refl _, he, by omega, hleft1,
          fun k x h1 h2 h3 => hright1 k x (by omega) h2 h3⟩
    · rename_i hge
      exact ⟨List.Perm.refl _, he, hlow, hleft, fun k x h1 h2 => hright k x (by omega) h2⟩

/-- After the partitioning loop, the last comparison and the swap that puts
the pivot in place: the pivot stands at the returned position, nothing above
it stands before and nothing below it stands after. -/
theorem partition_final (le : α → α → Bool)
    (htotal : ∀ a b, le a b = true ∨ le b a = true) (l : List α) (e span : Nat)
    (hlen : e + 1 = l.length) (he3 : 3 ≤ e) (hspan : e < span) :
    ∃ (l5 : List α) (low : Nat) (p : α),
      l5 = qSwapAt (partitionLoop le e span l 0 (e - 1)).1 e
        (if lessThanAt le (partitionLoop le e span l 0 (e - 1)).1
            (partitionLoop le e span l 0 (e - 1)).2 e
          then (partitionLoop le e span l 0 (e - 1)).2 + 1
          else (partitionLoop le e span l 0 (e - 1)).2) ∧
      low = (if lessThanAt le (partitionLoop le e span l 0 (e - 1)).1
            (partitionLoop le e span l 0 (e - 1)).2 e
          then (partitionLoop le e span l 0 (e - 1)).2 + 1
          else (partitionLoop le e span l 0 (e - 1)).2) ∧
      l5.Perm l ∧ low ≤ e ∧ l5[low]? = some p ∧
      (∀ k x, k < low → l5[k]? = some x → le x p = true) ∧
      (∀ k x, low < k → l5[k]? = some x → le p x = true) := by
  have hel : e < l.length := by omega
  obtain ⟨p, hp⟩ : ∃ p, l[e]? = some p := ⟨_, List.getElem?_eq_getElem hel⟩
  obtain ⟨c1, c2, c3, c4, c5⟩ := partitionLoop_spec le htotal e p span l 0 (e - 1) hp
    (by omega) (by omega) (by omega) (fun k x hk _ => by omega)
    (fun k x hk hke _ => by omega)
  generalize partitionLoop le e span l 0 (e - 1) = r at c1 c2 c3 c4 c5 ⊢
  have hrlen : r.1.length = l.length := c1.length_eq
  have hr2 : r.2 < r.1.length := by omega
  obtain ⟨x1, hx1⟩ : ∃ x1, r.1[r.2]? = some x1 := ⟨_, List.getElem?_eq_getElem hr2⟩
  have hnone : ∀ k, e < k → r.1[k]? = none := fun k hk =>
    List.getElem?_eq_none (by omega)
  by_cases hc : lessThanAt le r.1 r.2 e = true
  · have hx1p : le x1 p = true := by rw [lessThanAt_eq hx1 c2] at hc; exact hc
    have hz1 : r.2 + 1 < r.1.length := by omega
    obtain ⟨z, hz⟩ : ∃ z, r.1[r.2 + 1]? = some z := ⟨_, List.getElem?_eq_getElem hz1⟩
    have hget := fun k => qSwapAt_getElem? r.1 e (r.2 + 1) k p z c2 hz
    refine ⟨_, _, p, rfl, rfl, ?_, ?_, ?_, ?_, ?_⟩
    · rw [if_pos hc]; exact (qSwapAt_perm _ _ _).trans c1
    · rw [if_pos hc]; omega
    · rw [if_pos hc, hget, if_pos rfl]
    · rw [if_pos hc]
      intro k x hk hx
      rw [hget, if_neg (by omega), if_neg (by omega)] at hx
      by_cases hk2 : k = r.2
      · subst hk2; rw [hx1] at hx; cases hx; exact hx1p
      · exact c4 k x (by omega) hx
    · rw [if_pos hc]
      intro k x hk hx
      rw [hget, if_neg (by omega)] at hx
      by_cases hke : k = e
      · subst hke
        rw [if_pos rfl] at hx
        cases hx
        exact c5 (r.2 + 1) _ (by omega) (by omega) hz
      · rw [if_neg hke] at hx
        by_cases hke2 : k < e
        · exact c5 k x (by omega) hke2 hx
        · rw [hnone k (by omega)] at hx; cases hx
  · have hx1p : le p x1 = true := by
      rw [lessThanAt_eq hx1 c2] at hc
      rcases htotal x1 p with h | h
      · exact absurd h hc
      · exact h
    have hget := fun k => qSwapAt_getElem? r.1 e r.2 k p x1 c2 hx1
    refine ⟨_, _, p, rfl, rfl, ?_, ?_, ?_, ?_, ?_⟩
    · rw [if_neg hc]; exact (qSwapAt_perm _ _ _).trans c1
    · rw [if_neg hc]; omega
    · rw [if_neg hc, hget, if_pos rfl]
    · rw [if_neg hc]
      intro k x hk hx
      rw [hget, if_neg (by omega), if_neg (by omega)] at hx
      exact c4 k x hk hx
    · rw [if_neg hc]
      intro k x hk hx
      rw [hget, if_neg (by omega)] at hx
      by_cases hke : k = e
      · subst hke
        rw [if_pos rfl] at hx
        cases hx
        exact hx1p
      · rw [if_neg hke] at hx
        by_cases hke2 : k < e
        · exact c5 k x hk hke2 hx
        · rw [hnone k (by omega)] at hx; cases hx

theorem condSwap_perm (c : Bool) (l : List α) (i j : Nat) :
    (if c = true then qSwapAt l i j else l).Perm l := by
  split
  · exact qSwapAt_perm l i j
  · exact List.Perm.refl _

theorem sorted_three (le : α → α → Bool)
    (htotal : ∀ a b, le a b = true ∨ le b a = true)
    (htrans : ∀ a b c, le a b = true → le b c = true → le a c = true) (a b c : α) :
    let l1 := if lessThanAt le [a, b, c] 2 0 then qSwapAt [a, b, c] 2 0 else [a, b, c]
    let l2 := if lessThanAt le l1 1 0 then qSwapAt l1 1 0 else l1
    let l3 := if lessThanAt le l2 2 1 then qSwapAt l2 2 1 else l2
    l3.Pairwise (fun a b => le a b = true) := by
  intro l1 l2 l3
  have hto : ∀ u v, le u v = false → le v u = true := by
    intro u v h
    rcases htotal u v with h1 | h1
    · rw [h] at h1; cases h1
    · exact h1
  have key : ∀ x y z : α, le x z = true →
      (if lessThanAt le (if lessThanAt le [x, y, z] 1 0 then qSwapAt [x, y, z] 1 0
            else [x, y, z]) 2 1
        then qSwapAt (if lessThanAt le [x, y, z] 1 0 then qSwapAt [x, y, z] 1 0
            else [x, y, z]) 2 1
        else (if lessThanAt le [x, y, z] 1 0 then qSwapAt [x, y, z] 1 0
            else [x, y, z])).Pairwise (fun a b => le a b = true) := by
    intro x y z hxz
    cases h1 : le y x
    · have f1 := hto _ _ h1
      cases h2 : le z y
      · have f2 := hto _ _ h2
        simp [lessThanAt, qSwapAt, *]
      · simp [lessThanAt, qSwapAt, *]
    · have f1 := htrans _ _ _ h1 hxz
      cases h2 : le z x
      · simp [lessThanAt, qSwapAt, *]
      · simp [lessThanAt, qSwapAt, *]
  cases h0 : le c a
  · have e1 : l1 = [a, b, c] := by simp [l1, lessThanAt, h0]
    simp only [l3, l2, e1]
    exact key a b c (hto _ _ h0)
  · have e1 : l1 = [c, b, a] := by simp [l1, lessThanAt, qSwapAt, h0]
    simp only [l3, l2, e1]
    exact key c b a h0

/-- With enough fuel `qSortHelper` returns a permutation of its range that is
sorted for the comparison, provided the comparison is total and
transitive. -/
theorem qSortHelper_spec (le : α → α → Bool)
    (htotal : ∀ a b, le a b = true ∨ le b a = true)
    (htrans : ∀ a b c, le a b = true → le b c = true → le a c = true) :
    ∀ (fuel : Nat) (l : List α), l.length ≤ fuel →
      (qSortHelper le fuel l).Perm l ∧
        (qSortHelper le fuel l).Pairwise (fun a b => le a b = true)
  | 0, l, h => by
    have : l = [] := List.length_eq_zero.mp (by omega)
    subst this
    simp [qSortHelper]
  | fuel + 1, l, h => by
    have hto : ∀ u v, le u v = false → le v u = true := by
      intro u v h
      rcases htotal u v with h1 | h1
      · rw [h] at h1; cases h1
      · exact h1
    rw [qSortHelper]
    simp only []
    by_cases h2 : l.length < 2
    · rw [if_pos h2]
      refine ⟨List.Perm.refl _, ?_⟩
      match l, h2 with
      | [], _ => exact List.Pairwise.nil
      | [a], _ => simp
      | _ :: _ :: _, h2 => simp only [List.length_cons] at h2; omega
    · rw [if_neg h2]
      by_cases h22 : l.length = 2
      · rw [if_pos h22]
        refine ⟨condSwap_perm _ _ _ _, ?_⟩
        obtain ⟨a, b, rfl⟩ := List.length_eq_two.mp h22
        cases hba : le b a
        · have := hto _ _ hba
          simp [lessThanAt, qSwapAt, *]
        · simp [lessThanAt, qSwapAt, *]
      · rw [if_neg h22]
        by_cases h23 : l.length = 3
        · rw [if_pos h23]
          refine ⟨((condSwap_perm _ _ _ _).trans (condSwap_perm _ _ _ _)).trans
            (condSwap_perm _ _ _ _), ?_⟩
          obtain ⟨a, b, c, rfl⟩ := List.length_eq_three.mp h23
          have e1 : [a, b, c].length - 1 = 2 := rfl
          have e2 : [a, b, c].length / 2 = 1 := by simp
          rw [e1, e2]
          exact sorted_three le htotal htrans a b c
        · rw [if_neg h23]
          set l1 := (if lessThanAt le l (l.length - 1) 0 = true
            then qSwapAt l (l.length - 1) 0 else l) with hl1
          set l2 := (if lessThanAt le l1 (l.length / 2) 0 = true
            then qSwapAt l1 (l.length / 2) 0 else l1) with hl2
          set l3 := (if lessThanAt le l2 (l.length - 1) (l.length / 2) = true
            then qSwapAt l2 (l.length - 1) (l.length / 2) else l2) with hl3
          set l4 := qSwapAt l3 (l.length / 2) (l.length - 1) with hl4
          have p4 : l4.Perm l :=
            (qSwapAt_perm _ _ _).trans (((condSwap_perm _ _ _ _).trans
              (condSwap_perm _ _ _ _)).trans (condSwap_perm _ _ _ _))
          have len4 : l4.length = l.length := p4.length_eq
          obtain ⟨l5, low, p, e5, elow, p5, hlow, hp, hleft, hright⟩ :=
            partition_final le htotal l4 (l.length - 1) l.length (by omega) (by omega) (by omega)
          rw [← elow] at e5
          rw [← elow, ← e5]
          have len5 : l5.length = l.length := p5.length_eq.trans len4
          have hdrop : l5.drop low = p :: l5.drop (low + 1) := by
            have hlt : low < l5.length := by omega
            rw [List.drop_eq_getElem_cons hlt]
            congr 1
            have := List.getElem?_eq_getElem hlt
            rw [hp] at this
            exact (Option.some.inj this).symm
          have hone : (l5.drop low).take 1 = [p] := by rw [hdrop]; rfl
          have hsplit : l5.take low ++ [p] ++ l5.drop (low + 1) = l5 := by
            rw [List.append_assoc, List.singleton_append, ← hdrop, List.take_append_drop]
          obtain ⟨ih1p, ih1s⟩ := qSortHelper_spec le htotal htrans fuel (l5.take low)
            (by rw [List.length_take]; omega)
          obtain ⟨ih2p, ih2s⟩ := qSortHelper_spec le htotal htrans fuel (l5.drop (low + 1))
            (by rw [List.length_drop]; omega)
          have hL : ∀ x ∈ qSortHelper le fuel (l5.take low), le x p = true := by
            intro x hx
            have hx2 : x ∈ l5.take low := ih1p.mem_iff.mp hx
            obtain ⟨k, hk⟩ := List.mem_iff_getElem?.mp hx2
            rw [List.getElem?_take] at hk
            split at hk
            · exact hleft k x (by assumption) hk
            · cases hk
          have hR : ∀ x ∈ qSortHelper le fuel (l5.drop (low + 1)), le p x = true := by
            intro x hx
            have hx2 : x ∈ l5.drop (low + 1) := ih2p.mem_iff.mp hx
            obtain ⟨k, hk⟩ := List.mem_iff_getElem?.mp hx2
            rw [List.getElem?_drop] at hk
            exact hright _ x (by omega) hk
          rw [hone]
          constructor
          · have : (qSortHelper le fuel (l5.take low) ++ [p]
                ++ qSortHelper le fuel (l5.drop (low + 1))).Perm
                (l5.take low ++ [p] ++ l5.drop (low + 1)) :=
              (ih1p.append (List.Perm.refl _)).append ih2p
            rw [hsplit] at this
            exact this.trans (p5.trans p4)
          · rw [List.append_assoc, List.pairwise_append]
            refine ⟨ih1s, ?_, ?_⟩
            · rw [List.singleton_append, List.pairwise_cons]
              exact ⟨hR, ih2s⟩
            · intro x hx y hy
              rw [List.singleton_append, List.mem_cons] at hy
              rcases hy with rfl | hy
              · exact hL x hx
              · exact htrans _ _ _ (hL x hx) (hR y hy)

/-- On a total, transitive comparison `qSort` returns a sorted permutation
of its input. -/
theorem qSort_spec (le : α → α → Bool)
    (htotal : ∀ a b, le a b = true ∨ le b a = true)
    (htrans : ∀ a b c, le a b = true → le b c = true → le a c = true) (l : List α) :
    (qSort le l).Perm l ∧ (qSort le l).Pairwise (fun a b => le a b = true) :=
  qSortHelper_spec le htotal htrans l.length l (Nat.le_refl _)

end QSortProofs

/-! ## The comparison `SortMailboxes` -/

theorem ucstricmp_total : ∀ (a b : List Char), ucstricmp a b < 1 ∨ ucstricmp b a < 1
  | [], [] => by simp [ucstricmp]
  | [], _ :: _ => by simp [ucstricmp]
  | _ :: _, [] => by simp [ucstricmp]
  | x :: xs, y :: ys => by
    simp only [ucstricmp]
    by_cases h : foldCase x = foldCase y
    · rw [if_pos h, if_pos h.symm]
      exact ucstricmp_total xs ys
    · rw [if_neg h, if_neg (Ne.symm h)]
      omega

theorem ucstricmp_trans : ∀ (a b c : List Char),
    ucstricmp a b < 1 → ucstricmp b c < 1 → ucstricmp a c < 1
  | [], _, [] => by simp [ucstricmp]
  | [], _, _ :: _ => by simp [ucstricmp]
  | _ :: _, [], _ => by simp [ucstricmp]
  | _ :: _, _ :: _, [] => by simp [ucstricmp]
  | x :: xs, y :: ys, z :: zs => by
    simp only [ucstricmp]
    by_cases h1 : foldCase x = foldCase y
    · by_cases h2 : foldCase y = foldCase z
      · rw [if_pos h1, if_pos h2, if_pos (h1.trans h2)]
        exact ucstricmp_trans xs ys zs
      · rw [if_pos h1, if_neg h2, if_neg (by rw [h1]; exact h2)]
        intro _ h
        omega
    · by_cases h2 : foldCase y = foldCase z
      · rw [if_neg h1, if_pos h2, if_neg (by rw [← h2]; exact h1)]
        intro h _
        omega
      · rw [if_neg h1, if_neg h2]
        intro h3 h4
        have : foldCase x ≠ foldCase z := by omega
        rw [if_neg this]
        omega

theorem SortMailboxes_total (a b : TreeItemMailbox) :
    SortMailboxes a b = true ∨ SortMailboxes b a = true := by
  simp only [SortMailboxes, decide_eq_true_eq]
  exact ucstricmp_total _ _

theorem SortMailboxes_trans (a b c : TreeItemMailbox) :
    SortMailboxes a b = true → SortMailboxes b c = true → SortMailboxes a c = true := by
  simp only [SortMailboxes, decide_eq_true_eq]
  exact ucstricmp_trans _ _ _

/-! ## Finalization -/

theorem deref_append_left (heap t : List TreeItemMailbox) (p : Nat) (h : p < heap.length) :
    deref (heap ++ t) p = deref heap p := by
  simp [deref, List.getD_eq_getElem?_getD, List.getElem?_append_left h]

theorem deref_append_right (heap t : List TreeItemMailbox) (i : Nat) :
    deref (heap ++ t) (heap.length + i) = t.getD i (TreeItemMailbox.new none) := by
  simp [deref, List.getD_eq_getElem?_getD, List.getElem?_append_right]

theorem deref_set_self (heap : List TreeItemMailbox) (p : Nat) (v : TreeItemMailbox)
    (h : p < heap.length) : deref (heap.set p v) p = v := by
  simp [deref, List.getD_eq_getElem?_getD, h]

theorem deref_set_ne (heap : List TreeItemMailbox) (p q : Nat) (v : TreeItemMailbox)
    (h : p ≠ q) : deref (heap.set p v) q = deref heap q := by
  simp [deref, List.getD_eq_getElem?_getD, List.getElem?_set_ne h]

/-- The loop of `_finalizeList` appends one node per kept response to the
arena, in arrival order, and collects their pointers. -/
theorem collectMailboxes_spec (what : Nat) : ∀ (rs : List Responses.List)
    (heap : List TreeItemMailbox) (acc : List Nat), what < heap.length →
    collectMailboxes what rs heap acc =
      (heap ++ (keptResponses (deref heap what) rs).map (TreeItemMailbox.ofList what),
       acc ++ List.range' heap.length (keptResponses (deref heap what) rs).length)
  | [], heap, acc, _ => by simp [collectMailboxes, keptResponses]
  | it :: rest, heap, acc, h => by
    simp only [collectMailboxes]
    split
    · rename_i hk
      rw [collectMailboxes_spec what rest _ _ (by rw [List.length_append]; omega),
        deref_append_left _ _ _ h]
      have : keptResponses (deref heap what) (it :: rest)
          = it :: keptResponses (deref heap what) rest := by
        simp [keptResponses, List.filter_cons, hk]
      rw [this]
      simp [List.range'_succ]
    · rename_i hk
      rw [collectMailboxes_spec what rest _ _ h]
      have : keptResponses (deref heap what) (it :: rest)
          = keptResponses (deref heap what) rest := by
        simp only [keptResponses, List.filter_cons]
        rw [if_neg (by simpa using hk)]
      rw [this]

theorem map_deref_range (heap news : List TreeItemMailbox) :
    (List.range' heap.length news.length).map (deref (heap ++ news)) = news := by
  apply List.ext_getElem?
  intro i
  by_cases hi : i < news.length
  · simp [List.getElem?_map, List.getElem?_range', hi, deref,
      List.getD_eq_getElem?_getD, List.getElem?_append_right]
    rw [List.getElem_append_right (by omega)]
    simp
  · rw [List.getElem?_eq_none (by simpa using hi), List.getElem?_eq_none (by simpa using hi)]

/-- The arena after `_finalizeList`: the nodes of the kept responses are
appended in arrival order and the target gets the sorted pointers to them as
its child list. -/
theorem finalizeList_heap (m : Model) (command : Task) (hT : command.what < m._heap.length) :
    (_finalizeList m command)._heap =
      setChildren
        (m._heap ++ (keptResponses (deref m._heap command.what) m._listResponses).map
          (TreeItemMailbox.ofList command.what))
        command.what
        (qSort
          (fun a b => SortMailboxes
            (deref (m._heap ++ (keptResponses (deref m._heap command.what)
              m._listResponses).map (TreeItemMailbox.ofList command.what)) a)
            (deref (m._heap ++ (keptResponses (deref m._heap command.what)
              m._listResponses).map (TreeItemMailbox.ofList command.what)) b))
          (List.range' m._heap.length
            (keptResponses (deref m._heap command.what) m._listResponses).length)) := by
  simp only [_finalizeList]
  rw [collectMailboxes_spec command.what m._listResponses m._heap [] hT]
  simp

/-- What finalization leaves at the target: its child pointers are the
pointers of the new nodes in some order, the children as nodes are a
permutation of the nodes built from the kept responses, and they are sorted
by `SortMailboxes`. -/
theorem finalizeList_sorted_perm (m : Model) (command : Task)
    (hT : command.what < m._heap.length) :
    (deref (_finalizeList m command)._heap command.what)._children.Perm
        (List.range' m._heap.length
          (keptResponses (deref m._heap command.what) m._listResponses).length) ∧
      (childrenOf (_finalizeList m command) command.what).Perm
        ((keptResponses (deref m._heap command.what) m._listResponses).map
          (TreeItemMailbox.ofList command.what)) ∧
      (childrenOf (_finalizeList m command) command.what).Pairwise
        (fun a b => SortMailboxes a b = true) := by
  unfold childrenOf
  rw [finalizeList_heap m command hT]
  generalize hnews : (keptResponses (deref m._heap command.what) m._listResponses).map
    (TreeItemMailbox.ofList command.what) = news
  have hlen : (keptResponses (deref m._heap command.what) m._listResponses).length
      = news.length := by rw [← hnews, List.length_map]
  rw [hlen]
  obtain ⟨hperm, hsorted⟩ := qSort_spec
    (fun a b => SortMailboxes (deref (m._heap ++ news) a) (deref (m._heap ++ news) b))
    (fun a b => SortMailboxes_total _ _) (fun a b c => SortMailboxes_trans _ _ _)
    (List.range' m._heap.length news.length)
  generalize qSort
    (fun a b => SortMailboxes (deref (m._heap ++ news) a) (deref (m._heap ++ news) b))
    (List.range' m._heap.length news.length) = sorted at hperm hsorted ⊢
  have hT2 : command.what < (m._heap ++ news).length := by
    rw [List.length_append]; omega
  have hch : (deref (setChildren (m._heap ++ news) command.what sorted)
      command.what)._children = sorted := by
    unfold setChildren
    rw [deref_set_self _ _ _ hT2]
  have hmap : sorted.map (deref (setChildren (m._heap ++ news) command.what sorted))
      = sorted.map (deref (m._heap ++ news)) := by
    apply List.map_congr_left
    intro c hc
    have hc2 : c ∈ List.range' m._heap.length news.length := hperm.mem_iff.mp hc
    have hc3 : m._heap.length ≤ c := (List.mem_range'_1.mp hc2).1
    unfold setChildren
    exact deref_set_ne _ _ _ _ (by omega)
  rw [hch, hmap]
  refine ⟨hperm, ?_, ?_⟩
  · have := hperm.map (deref (m._heap ++ news))
    rw [map_deref_range] at this
    exact this
  · rw [List.pairwise_map]
    exact hsorted

/-- C4: after finalization on a node `T` of the tree, with any buffer, the
children of `T` are exactly the nodes built from the buffered responses whose
mailbox name differs from the name of `T` followed by its separator, one node
per such response; every child pointer is a node allocated by this
finalization, no pointer occurs twice (so none of the previous children is
left), and the children are in ascending order of their names compared
case-insensitively. -/
theorem finalizeList_children (m : Model) (command : Task)
    (hT : command.what < m._heap.length) :
    (childrenOf (_finalizeList m command) command.what).Perm
        ((m._listResponses.filter (fun r => decide (r.mailbox.chars ≠
            (deref m._heap command.what)._mailbox.chars
              ++ (deref m._heap command.what)._separator.chars))).map
          (TreeItemMailbox.ofList command.what)) ∧
      (childrenOf (_finalizeList m command) command.what).Pairwise
        (fun a b => QString_compare a._mailbox b._mailbox ≤ 0) ∧
      (deref (_finalizeList m command)._heap command.what)._children.Nodup ∧
      (∀ c ∈ (deref (_finalizeList m command)._heap command.what)._children,
        m._heap.length ≤ c) := by
  obtain ⟨hptr, hperm, hsorted⟩ := finalizeList_sorted_perm m command hT
  refine ⟨hperm, ?_, ?_, ?_⟩
  · refine hsorted.imp ?_
    intro a b hab
    simp only [SortMailboxes, decide_eq_true_eq] at hab
    omega
  · exact hptr.nodup_iff.mpr (List.nodup_range' _ _)
  · intro c hc
    exact (List.mem_range'_1.mp (hptr.mem_iff.mp hc)).1

/-- Witness for C4: finalization on the mailbox INBOX (separator ".") with
the buffer "INBOX.", "INBOX.b", "INBOX.A", "INBOX.a". -/
theorem finalizeList_children_witness :
    (1 < inboxChildrenSession._heap.length) ∧
    ((childrenOf (_finalizeList inboxChildrenSession { kind := .LIST, what := 1 }) 1).Perm
        ((inboxChildrenSession._listResponses.filter (fun r => decide (r.mailbox.chars ≠
            (deref inboxChildrenSession._heap 1)._mailbox.chars
              ++ (deref inboxChildrenSession._heap 1)._separator.chars))).map
          (TreeItemMailbox.ofList 1)) ∧
      (childrenOf (_finalizeList inboxChildrenSession { kind := .LIST, what := 1 }) 1).Pairwise
        (fun a b => QString_compare a._mailbox b._mailbox ≤ 0) ∧
      (deref (_finalizeList inboxChildrenSession { kind := .LIST, what := 1 })._heap
        1)._children.Nodup ∧
      (∀ c ∈ (deref (_finalizeList inboxChildrenSession { kind := .LIST, what := 1 })._heap
          1)._children,
        inboxChildrenSession._heap.length ≤ c)) :=
  ⟨by decide, finalizeList_children inboxChildrenSession { kind := .LIST, what := 1 }
    (by decide)⟩

/-- The children that finalization leaves on INBOX in `inboxChildrenSession`:
the echo "INBOX." is dropped. -/
theorem inboxChildren_names :
    childNames (_finalizeList inboxChildrenSession { kind := .LIST, what := 1 }) 1
      = [some "INBOX.A", some "INBOX.a", some "INBOX.b"] := by
  decide

/-- C5 (counterexample): the untagged LIST responses for INBOX, Sent and
sent, in this order, followed by the matching tagged completion leave the
children INBOX, sent, Sent: the two names that are equal ignoring case have
changed places. -/
theorem finalizeList_not_stable_example :
    childNames inboxSentSession 0 = [some "INBOX", some "sent", some "Sent"] ∧
      childNames inboxSentSession 0 ≠ [some "INBOX", some "Sent", some "sent"] := by
  decide

/-- C5 (amended): the sort of finalization is not stable. For every buffer
and every name, take the buffered responses that finalization keeps, those
whose mailbox name is not the name of the target followed by its separator;
the finalized children whose name equals the given name ignoring case are a
permutation of the nodes of the kept responses with such a name, so each kept
entry appears once, in some order. The order of arrival is not kept: INBOX,
Sent, sent yield INBOX, sent, Sent. -/
theorem finalizeList_equal_names (m : Model) (command : Task) (name : QString)
    (hT : command.what < m._heap.length) :
    ((childrenOf (_finalizeList m command) command.what).filter
        (fun c => decide (QString_compare c._mailbox name = 0))).Perm
      ((((m._listResponses.filter (fun r => decide (r.mailbox.chars ≠
            (deref m._heap command.what)._mailbox.chars
              ++ (deref m._heap command.what)._separator.chars))).map
          (TreeItemMailbox.ofList command.what))).filter
        (fun c => decide (QString_compare c._mailbox name = 0))) ∧
      childNames inboxSentSession 0 = [some "INBOX", some "sent", some "Sent"] := by
  obtain ⟨_, hperm, _⟩ := finalizeList_sorted_perm m command hT
  exact ⟨hperm.filter _, by decide⟩

/-- Witness for C5 (amended): the children named like "INBOX.a" after the
finalization of "INBOX.", "INBOX.b", "INBOX.A", "INBOX.a" on the mailbox
INBOX, where the echo "INBOX." is not kept. -/
theorem finalizeList_equal_names_witness :
    (1 < inboxChildrenSession._heap.length) ∧
    (((childrenOf (_finalizeList inboxChildrenSession { kind := .LIST, what := 1 }) 1).filter
        (fun c => decide (QString_compare c._mailbox (some "INBOX.a") = 0))).Perm
      (((inboxChildrenSession._listResponses.filter (fun r => decide (r.mailbox.chars ≠
            (deref inboxChildrenSession._heap 1)._mailbox.chars
              ++ (deref inboxChildrenSession._heap 1)._separator.chars))).map
          (TreeItemMailbox.ofList 1)).filter
        (fun c => decide (QString_compare c._mailbox (some "INBOX.a") = 0))) ∧
      childNames inboxSentSession 0 = [some "INBOX", some "sent", some "Sent"]) :=
  ⟨by decide, finalizeList_equal_names inboxChildrenSession { kind := .LIST, what := 1 }
    (some "INBOX.a") (by decide)⟩

/-- An entry that is the echo of the target is dropped even when another
entry has the same name ignoring case: with the buffer "INBOX.", "inbox." on
the mailbox INBOX only "inbox." becomes a child, and the children named like
"INBOX.a" in `inboxChildrenSession` are the two kept entries of that name. -/
theorem equal_names_echo_example :
    childNames (_finalizeList inboxEchoSession { kind := .LIST, what := 1 }) 1
        = [some "inbox."] ∧
      ((childrenOf (_finalizeList inboxChildrenSession { kind := .LIST, what := 1 }) 1).filter
          (fun c => decide (QString_compare c._mailbox (some "INBOX.a") = 0))).map
          (fun c => c._mailbox)
        = [some "INBOX.A", some "INBOX.a"] := by
  decide

/-! ## The PREAUTH greeting and the handlers outside `handleState` -/

/-- C11: in state ESTABLISHED an untagged PREAUTH greeting whose response
code is not ALERT is handled without throwing and leaves the state AUTH; the
command table, the buffer of LIST responses and the tree are as before. -/
theorem handleState_greeting_preauth (m : Model) (resp : Responses.State)
    (hstate : m._state = .CONN_STATE_ESTABLISHED) (htag : resp.tag = "")
    (hkind : resp.kind = .PREAUTH) (hcode : resp.respCode ≠ .ALERT) :
    (handleState m resp).2 = none ∧
      (handleState m resp).1._state = .CONN_STATE_AUTH ∧
      (handleState m resp).1._commandMap = m._commandMap ∧
      (handleState m resp).1._listResponses = m._listResponses ∧
      (handleState m resp).1._heap = m._heap ∧
      (handleState m resp).1._mailboxes = m._mailboxes := by
  have hs := updateCapabilities_state m resp
  have hc := updateCapabilities_commandMap m resp
  have hl := updateCapabilities_listResponses m resp
  have hh := updateCapabilities_heap m resp
  have hm : (updateCapabilities m resp)._mailboxes = m._mailboxes := by
    unfold updateCapabilities; split <;> rfl
  have h : handleState m resp
      = (_updateState (updateCapabilities m resp) .CONN_STATE_AUTH, none) := by
    unfold handleState
    rw [if_neg hcode]
    simp only []
    rw [if_neg (not_not.mpr htag)]
    unfold handleStateByState
    rw [hs, hstate]
    simp only []
    rw [if_neg (not_not.mpr htag)]
    unfold handleStateInitial
    rw [hkind]
  rw [h]
  exact ⟨rfl, rfl, hc, hl, hh, hm⟩

/-- Witness for C11: the PREAUTH greeting carrying capabilities, on a fresh
session. -/
theorem handleState_greeting_preauth_witness :
    (handleState Model.init (withCapabilities "" .PREAUTH ["IMAP4rev1"])).2 = none ∧
      (handleState Model.init (withCapabilities "" .PREAUTH ["IMAP4rev1"])).1._state
        = .CONN_STATE_AUTH ∧
      (handleState Model.init (withCapabilities "" .PREAUTH ["IMAP4rev1"])).1._commandMap
        = Model.init._commandMap ∧
      (handleState Model.init (withCapabilities "" .PREAUTH ["IMAP4rev1"])).1._listResponses
        = Model.init._listResponses ∧
      (handleState Model.init (withCapabilities "" .PREAUTH ["IMAP4rev1"])).1._heap
        = Model.init._heap ∧
      (handleState Model.init (withCapabilities "" .PREAUTH ["IMAP4rev1"])).1._mailboxes
        = Model.init._mailboxes :=
  handleState_greeting_preauth Model.init (withCapabilities "" .PREAUTH ["IMAP4rev1"])
    (by decide) (by decide) (by decide) (by decide)

/-- C12: in every session, the handlers of the Search, Status, Fetch and
Namespace responses throw `UnexpectedResponseReceived` and leave the whole
session, so the state, the command table, the buffer, the capability cache
and the tree, as it was. -/
theorem handleSearch_status_fetch_namespace (m : Model) (search : Search) (status : Status)
    (fetch : Fetch) (ns : Namespace) :
    handleSearch m search = (m, some (.UnexpectedResponseReceived "SEARCH reply, wtf?")) ∧
      handleStatus m status = (m, some (.UnexpectedResponseReceived "STATUS reply, wtf?")) ∧
      handleFetch m fetch = (m, some (.UnexpectedResponseReceived "FETCH reply, wtf?")) ∧
      handleNamespace m ns
        = (m, some (.UnexpectedResponseReceived "NAMESPACE reply, wtf?")) :=
  ⟨rfl, rfl, rfl, rfl⟩

/-- C13: `handleList` does not throw, appends the response at the end of the
buffer and leaves the tree, the command table and the connection state as
they were; nothing is finalized. -/
theorem handleList_appends (m : Model) (r : Responses.List) :
    (handleList m r).2 = none ∧
      (handleList m r).1._listResponses = m._listResponses ++ [r] ∧
      (handleList m r).1._heap = m._heap ∧
      (handleList m r).1._mailboxes = m._mailboxes ∧
      (handleList m r).1._commandMap = m._commandMap ∧
      (handleList m r).1._state = m._state ∧
      (handleList m r).1._emitted = m._emitted :=
  ⟨rfl, rfl, rfl, rfl, rfl, rfl, rfl⟩

/-! ## The LIST request -/

theorem lookup_filter_ne (cmd key : String) (hne : key ≠ cmd) :
    ∀ (map : List (String × Task)),
      (map.filter (fun entry => decide (entry.1 ≠ cmd))).lookup key = map.lookup key
  | [] => rfl
  | (k, t) :: rest => by
    by_cases hk : k = cmd
    · subst hk
      have hkk : (key == k) = false := by simpa using hne
      simp only [List.filter_cons, List.lookup_cons, hkk]
      simpa using lookup_filter_ne k key hne rest
    · have : decide ((k, t).1 ≠ cmd) = true := by simpa using hk
      rw [List.filter_cons, if_pos this]
      simp only [List.lookup_cons]
      rw [lookup_filter_ne cmd key hne rest]

/-- After `_commandMap[ cmd ] = task` the key `cmd` has the task and every
other key has what it had. -/
theorem commandMapAssign_lookup (map : List (String × Task)) (cmd key : String) (task : Task) :
    (commandMapAssign map cmd task).lookup key
      = if key = cmd then some task else map.lookup key := by
  unfold commandMapAssign
  by_cases h : key = cmd
  · subst h
    simp [List.lookup_cons]
  · have hb : (key == cmd) = false := by simpa using h
    rw [if_neg h, List.lookup_cons, hb]
    exact lookup_filter_ne cmd key h map

/-- C14: for a node of the tree, `_askForChildrenOfMailbox` sends exactly one
LIST command, with an empty reference and with the pattern "%" when the name
of the node is null (the root) and the name followed by ".%" otherwise;
afterwards the command table maps the tag the issuer returned to the task
LIST on that node and every other key to what it had; nothing else of the
session changes. -/
theorem askForChildrenOfMailbox_registers (parser : Parser) (m : Model) (item : Nat)
    (key : String) (_hitem : item < m._heap.length) :
    (_askForChildrenOfMailbox parser m item).1.sent
        = parser.sent ++ [("", match (deref m._heap item)._mailbox with
            | none => "%"
            | some name => name ++ ".%")] ∧
      (_askForChildrenOfMailbox parser m item).2._commandMap.lookup key
        = (if key = parser.tagFor parser.sent then some { kind := .LIST, what := item }
            else m._commandMap.lookup key) ∧
      (_askForChildrenOfMailbox parser m item).2._state = m._state ∧
      (_askForChildrenOfMailbox parser m item).2._listResponses = m._listResponses ∧
      (_askForChildrenOfMailbox parser m item).2._heap = m._heap := by
  refine ⟨rfl, ?_, rfl, rfl, rfl⟩
  exact commandMapAssign_lookup _ _ _ _

/-- Witness for C14: the request for the children of the mailbox INBOX. -/
theorem askForChildrenOfMailbox_registers_witness :
    (1 < inboxSessionA1._heap.length) ∧
    ((_askForChildrenOfMailbox parserA1 inboxSessionA1 1).1.sent
        = parserA1.sent ++ [("", match (deref inboxSessionA1._heap 1)._mailbox with
            | none => "%"
            | some name => name ++ ".%")] ∧
      (_askForChildrenOfMailbox parserA1 inboxSessionA1 1).2._commandMap.lookup "A2"
        = (if "A2" = parserA1.tagFor parserA1.sent then some { kind := .LIST, what := 1 }
            else inboxSessionA1._commandMap.lookup "A2") ∧
      (_askForChildrenOfMailbox parserA1 inboxSessionA1 1).2._state = inboxSessionA1._state ∧
      (_askForChildrenOfMailbox parserA1 inboxSessionA1 1).2._listResponses
        = inboxSessionA1._listResponses ∧
      (_askForChildrenOfMailbox parserA1 inboxSessionA1 1).2._heap = inboxSessionA1._heap) :=
  ⟨by decide, askForChildrenOfMailbox_registers parserA1 inboxSessionA1 1 "A2" (by decide)⟩

/-- The LIST commands sent for the root and for the mailbox INBOX. -/
theorem askForChildrenOfMailbox_patterns :
    (_askForChildrenOfMailbox parserA1 inboxSessionA1 0).1.sent = [("", "%")] ∧
      (_askForChildrenOfMailbox parserA1 inboxSessionA1 1).1.sent = [("", "INBOX.%")] := by
  decide

/-- C15 (counterexample): the tag A1 is registered for a LIST of the root; a
request for the children of INBOX for which the issuer returns A1 again does
not fail and replaces the entry: A1 now stands for a LIST of INBOX. -/
theorem askForChildrenOfMailbox_overwrites_example :
    inboxSessionA1._commandMap.lookup "A1" = some { kind := .LIST, what := 0 } ∧
      (_askForChildrenOfMailbox parserA1 inboxSessionA1 1).2._commandMap.lookup "A1"
        = some { kind := .LIST, what := 1 } := by
  decide

/-- C15 (amended): when the issuer returns a tag that is already a key of the
command table, `_askForChildrenOfMailbox` does not fail: the entry of that
tag is replaced by the task LIST on the requested node. -/
theorem askForChildrenOfMailbox_overwrites (parser : Parser) (m : Model) (item : Nat)
    (old : Task) (_hold : m._commandMap.lookup (parser.tagFor parser.sent) = some old) :
    (_askForChildrenOfMailbox parser m item).2._commandMap.lookup (parser.tagFor parser.sent)
      = some { kind := .LIST, what := item } := by
  have h := commandMapAssign_lookup m._commandMap (parser.tagFor parser.sent)
    (parser.tagFor parser.sent) { kind := .LIST, what := item }
  rw [if_pos rfl] at h
  exact h

/-- Witness for C15 (amended): the tag A1, registered for the root, returned
again for INBOX. -/
theorem askForChildrenOfMailbox_overwrites_witness :
    inboxSessionA1._commandMap.lookup (parserA1.tagFor parserA1.sent)
        = some { kind := .LIST, what := 0 } ∧
      (_askForChildrenOfMailbox parserA1 inboxSessionA1 1).2._commandMap.lookup
          (parserA1.tagFor parserA1.sent)
        = some { kind := .LIST, what := 1 } :=
  ⟨by decide, askForChildrenOfMailbox_overwrites parserA1 inboxSessionA1 1
    { kind := .LIST, what := 0 } (by decide)⟩

/-! ## Responses in state LOGOUT -/

/-- C16 (counterexample): in state LOGOUT an untagged LIST response is
buffered without any exception, and so is a completion whose tag is
registered for a LIST finalized without any exception. -/
theorem plug_logout_no_throw_example :
    logoutSessionA1._state = .CONN_STATE_LOGOUT ∧
      (plug logoutSessionA1 (.list (listResponse "INBOX"))).2 = none ∧
      (plug logoutSessionA1 (.capability { capabilities := ["IMAP4rev1"] })).2 = none ∧
      (plug logoutSessionA1 (.state (completion "A1"))).2 = none := by
  decide

/-- C16 (amended): in state LOGOUT the dispatch of a response throws exactly
when the response is a Search, Status, Fetch or Namespace response, or a
State response that carries ALERT, is untagged, or bears a tag that is not
registered for a LIST. Capability, NumberResponse, List and Flags responses
and a completion of a registered LIST are handled without an exception. -/
theorem plug_logout_throws_iff (m : Model) (resp : AbstractResponse)
    (hstate : m._state = .CONN_STATE_LOGOUT) :
    (plug m resp).2 = none ↔
      match resp with
      | .state r => r.respCode ≠ .ALERT ∧ r.tag ≠ "" ∧
          ∃ T, m._commandMap.lookup r.tag = some { kind := .LIST, what := T }
      | .capability _ => True
      | .numberResponse _ => True
      | .list _ => True
      | .flags _ => True
      | .search _ => False
      | .status _ => False
      | .fetch _ => False
      | .namespaceResponse _ => False := by
  cases resp with
  | state r =>
    simp only [plug]
    unfold handleState
    by_cases hcode : r.respCode = .ALERT
    · rw [if_pos hcode]
      simp [hcode]
    · rw [if_neg hcode]
      simp only []
      by_cases htag : r.tag = ""
      · rw [if_neg (not_not.mpr htag)]
        unfold handleStateByState
        rw [updateCapabilities_state, hstate]
        simp [htag]
      · rw [if_pos htag, updateCapabilities_commandMap]
        cases hl : m._commandMap.lookup r.tag with
        | none => simp [hcode, htag]
        | some task =>
          obtain ⟨kind, what⟩ := task
          cases kind <;> simp [hcode, htag]
  | capability r => simp [plug, handleCapability]
  | numberResponse r => simp [plug, handleNumberResponse]
  | list r => simp [plug, handleList]
  | flags r => simp [plug, handleFlags]
  | search r => simp [plug, handleSearch]
  | status r => simp [plug, handleStatus]
  | fetch r => simp [plug, handleFetch]
  | namespaceResponse r => simp [plug, handleNamespace]

/-- Witness for C16 (amended): an untagged BYE in state LOGOUT. -/
theorem plug_logout_throws_iff_witness :
    (plug logoutSessionA1 (.state (greeting .BYE))).2 = none ↔
      ((greeting .BYE).respCode ≠ .ALERT ∧ (greeting .BYE).tag ≠ "" ∧
        ∃ T, logoutSessionA1._commandMap.lookup (greeting .BYE).tag
          = some { kind := .LIST, what := T }) :=
  plug_logout_throws_iff logoutSessionA1 (.state (greeting .BYE)) (by decide)

/-! ## The order of events in a finalization and the cleared buffer -/

/-- C17: a finalization on a node of the tree emits `layoutAboutToBeChanged`
once and `layoutChanged` once, in this order and nothing else; the child list
of the target is still the old one after the first signal and after the loop,
and it is already the new one when the second signal is emitted. The four
program points are those of one call, in which no handler runs. -/
theorem finalizeList_signal_order (m : Model) (command : Task)
    (hT : command.what < m._heap.length) :
    (_finalizeListTrace m command).getLast? = some (_finalizeList m command) ∧
      (_finalizeListTrace m command).map (fun s => s._emitted)
        = [m._emitted ++ [Signal.layoutAboutToBeChanged],
           m._emitted ++ [Signal.layoutAboutToBeChanged],
           m._emitted ++ [Signal.layoutAboutToBeChanged],
           m._emitted ++ [Signal.layoutAboutToBeChanged, Signal.layoutChanged]] ∧
      (_finalizeListTrace m command).map (fun s => (deref s._heap command.what)._children)
        = [(deref m._heap command.what)._children,
           (deref m._heap command.what)._children,
           (deref (_finalizeList m command)._heap command.what)._children,
           (deref (_finalizeList m command)._heap command.what)._children] := by
  refine ⟨rfl, ?_, ?_⟩
  · simp [_finalizeListTrace]
  · have h2 : (deref (collectMailboxes command.what m._listResponses m._heap []).1
        command.what)._children = (deref m._heap command.what)._children := by
      rw [collectMailboxes_spec command.what m._listResponses m._heap [] hT]
      simp only []
      rw [deref_append_left _ _ _ hT]
    simp only [_finalizeListTrace, List.map_cons, List.map_nil, h2]
    rfl

/-- Witness for C17: the finalization of INBOX in `inboxChildrenSession`. -/
theorem finalizeList_signal_order_witness :
    (1 < inboxChildrenSession._heap.length) ∧
    ((_finalizeListTrace inboxChildrenSession { kind := .LIST, what := 1 }).getLast?
        = some (_finalizeList inboxChildrenSession { kind := .LIST, what := 1 }) ∧
      (_finalizeListTrace inboxChildrenSession { kind := .LIST, what := 1 }).map
          (fun s => s._emitted)
        = [inboxChildrenSession._emitted ++ [Signal.layoutAboutToBeChanged],
           inboxChildrenSession._emitted ++ [Signal.layoutAboutToBeChanged],
           inboxChildrenSession._emitted ++ [Signal.layoutAboutToBeChanged],
           inboxChildrenSession._emitted
             ++ [Signal.layoutAboutToBeChanged, Signal.layoutChanged]] ∧
      (_finalizeListTrace inboxChildrenSession { kind := .LIST, what := 1 }).map
          (fun s => (deref s._heap 1)._children)
        = [(deref inboxChildrenSession._heap 1)._children,
           (deref inboxChildrenSession._heap 1)._children,
           (deref (_finalizeList inboxChildrenSession { kind := .LIST, what := 1 })._heap
             1)._children,
           (deref (_finalizeList inboxChildrenSession { kind := .LIST, what := 1 })._heap
             1)._children]) :=
  ⟨by decide, finalizeList_signal_order inboxChildrenSession { kind := .LIST, what := 1 }
    (by decide)⟩

/-- C18: the buffer of LIST responses is empty after a finalization, and a
second finalization that follows with no LIST response in between leaves its
target, a node of the tree, without children. -/
theorem finalizeList_twice (m : Model) (first second : Task)
    (hT : second.what < (_finalizeList m first)._heap.length) :
    (_finalizeList m first)._listResponses = [] ∧
      childrenOf (_finalizeList (_finalizeList m first) second) second.what = [] := by
  refine ⟨rfl, ?_⟩
  obtain ⟨_, hperm, _⟩ := finalizeList_sorted_perm (_finalizeList m first) second hT
  have hb : (_finalizeList m first)._listResponses = [] := rfl
  rw [hb] at hperm
  simpa [keptResponses] using hperm

/-- Witness for C18: INBOX, Sent and sent finalized on the root, then a second
finalization on the root. -/
theorem finalizeList_twice_witness :
    (0 < (_finalizeList inboxSentBuffered { kind := .LIST, what := 0 })._heap.length) ∧
    ((_finalizeList inboxSentBuffered { kind := .LIST, what := 0 })._listResponses = [] ∧
      childrenOf (_finalizeList (_finalizeList inboxSentBuffered { kind := .LIST, what := 0 })
        { kind := .LIST, what := 0 }) 0 = []) :=
  ⟨by decide, finalizeList_twice inboxSentBuffered { kind := .LIST, what := 0 }
    { kind := .LIST, what := 0 } (by decide)⟩

/-! ## Reachable connection states -/

/-- One call of `handleStateInitial` keeps the state or sets it to AUTH or
LOGOUT. -/
theorem handleStateInitial_state (m : Model) (resp : Responses.State) :
    (handleStateInitial m resp).1._state = m._state ∨
      (handleStateInitial m resp).1._state = .CONN_STATE_AUTH ∨
      (handleStateInitial m resp).1._state = .CONN_STATE_LOGOUT := by
  unfold handleStateInitial
  split
  · exact Or.inr (Or.inl rfl)
  · exact Or.inr (Or.inr rfl)
  · exact Or.inr (Or.inr rfl)
  · exact Or.inl rfl

/-- One dispatch of a State response keeps the connection state, or starts in
ESTABLISHED and ends in AUTH or LOGOUT. -/
theorem handleState_state_step (m : Model) (resp : Responses.State) :
    (handleState m resp).1._state = m._state ∨
      (m._state = .CONN_STATE_ESTABLISHED ∧
        ((handleState m resp).1._state = .CONN_STATE_AUTH ∨
          (handleState m resp).1._state = .CONN_STATE_LOGOUT)) := by
  have hs := updateCapabilities_state m resp
  unfold handleState
  split
  · exact Or.inl rfl
  · simp only []
    split
    · split
      · exact Or.inl hs
      · split
        · exact Or.inl hs
        · exact Or.inl (by rw [finalizeList_state]; exact hs)
    · generalize updateCapabilities m resp = m1 at hs ⊢
      rw [← hs]
      unfold handleStateByState
      cases hst : m1._state
      case CONN_STATE_ESTABLISHED =>
        simp only []
        split
        · exact Or.inl hst
        · rcases handleStateInitial_state m1 resp with h | h | h
          · exact Or.inl (h.trans hst)
          · exact Or.inr ⟨trivial, Or.inl h⟩
          · exact Or.inr ⟨trivial, Or.inr h⟩
      all_goals exact Or.inl hst

/-- One dispatch of a response of any kind keeps the connection state, or
starts in ESTABLISHED and ends in AUTH or LOGOUT. -/
theorem plug_state_step (m : Model) (resp : AbstractResponse) :
    (plug m resp).1._state = m._state ∨
      (m._state = .CONN_STATE_ESTABLISHED ∧
        ((plug m resp).1._state = .CONN_STATE_AUTH ∨
          (plug m resp).1._state = .CONN_STATE_LOGOUT)) := by
  cases resp with
  | state r => exact handleState_state_step m r
  | _ => exact Or.inl rfl

theorem dispatchAll_cons (m : Model) (r : AbstractResponse) (rs : List AbstractResponse) :
    dispatchAll m (r :: rs) = dispatchAll (plug m r).1 rs := rfl

/-- From a state other than ESTABLISHED no sequence of dispatches changes the
connection state. -/
theorem dispatchAll_state_fixed : ∀ (resps : List AbstractResponse) (m : Model),
    m._state ≠ .CONN_STATE_ESTABLISHED → (dispatchAll m resps)._state = m._state
  | [], _, _ => rfl
  | r :: rs, m, h => by
    rw [dispatchAll_cons]
    rcases plug_state_step m r with h1 | ⟨h1, _⟩
    · rw [dispatchAll_state_fixed rs (plug m r).1 (by rw [h1]; exact h), h1]
    · exact absurd h1 h

/-- From ESTABLISHED, AUTH or LOGOUT every sequence of dispatches ends in one
of these three states. -/
theorem dispatchAll_state_inv : ∀ (resps : List AbstractResponse) (m : Model),
    (m._state = .CONN_STATE_ESTABLISHED ∨ m._state = .CONN_STATE_AUTH ∨
      m._state = .CONN_STATE_LOGOUT) →
    ((dispatchAll m resps)._state = .CONN_STATE_ESTABLISHED ∨
      (dispatchAll m resps)._state = .CONN_STATE_AUTH ∨
      (dispatchAll m resps)._state = .CONN_STATE_LOGOUT)
  | [], _, h => h
  | r :: rs, m, h => by
    rw [dispatchAll_cons]
    apply dispatchAll_state_inv rs
    rcases plug_state_step m r with h1 | ⟨_, h1 | h1⟩
    · rw [h1]; exact h
    · exact Or.inr (Or.inl h1)
    · exact Or.inr (Or.inr h1)

/-- C19: after any sequence of responses dispatched to a freshly constructed
session, continuing after dispatches that throw, the connection state is
ESTABLISHED, AUTH or LOGOUT, so never NOT_AUTH, SELECTING or SELECTED, and
once it is not ESTABLISHED no further sequence of dispatches changes it. -/
theorem dispatchAll_reachable (resps more : List AbstractResponse) :
    ((dispatchAll Model.init resps)._state = .CONN_STATE_ESTABLISHED ∨
      (dispatchAll Model.init resps)._state = .CONN_STATE_AUTH ∨
      (dispatchAll Model.init resps)._state = .CONN_STATE_LOGOUT) ∧
    ((dispatchAll Model.init resps)._state ≠ .CONN_STATE_NOT_AUTH ∧
      (dispatchAll Model.init resps)._state ≠ .CONN_STATE_SELECTING ∧
      (dispatchAll Model.init resps)._state ≠ .CONN_STATE_SELECTED) ∧
    ((dispatchAll Model.init resps)._state = .CONN_STATE_ESTABLISHED ∨
      (dispatchAll (dispatchAll Model.init resps) more)._state
        = (dispatchAll Model.init resps)._state) := by
  have hinv := dispatchAll_state_inv resps Model.init (Or.inl rfl)
  refine ⟨hinv, ?_, ?_⟩
  · rcases hinv with h | h | h <;> rw [h] <;> decide
  · by_cases h : (dispatchAll Model.init resps)._state = .CONN_STATE_ESTABLISHED
    · exact Or.inl h
    · exact Or.inr (dispatchAll_state_fixed more _ h)

/-- The three reachable states are reached: no response, PREAUTH, and OK. -/
theorem dispatchAll_reachable_examples :
    (dispatchAll Model.init [])._state = .CONN_STATE_ESTABLISHED ∧
      (dispatchAll Model.init [.state (greeting .PREAUTH)])._state = .CONN_STATE_AUTH ∧
      (dispatchAll Model.init [.state (greeting .OK)])._state = .CONN_STATE_LOGOUT ∧
      (dispatchAll Model.init [.state (greeting .BYE),
        .state (greeting .PREAUTH)])._state = .CONN_STATE_LOGOUT := by
  decide

/-! ## `SortMailboxes` against the lexicographic order of the folded names -/

theorem lex_cons_ne {a b : Nat} {l₁ l₂ : List Nat}
    (h : List.Lex (fun x y => x < y) (a :: l₁) (b :: l₂)) (hne : a ≠ b) : a < b := by
  cases h with
  | cons _ => exact absurd rfl hne
  | rel hr => exact hr

theorem ucstricmp_neg_iff : ∀ (a b : List Char),
    ucstricmp a b < 0 ↔ List.Lex (fun x y => x < y) (a.map foldCase) (b.map foldCase)
  | [], [] => by simp [ucstricmp]
  | [], _ :: _ => by simp [ucstricmp, List.Lex.nil]
  | _ :: _, [] => by simp [ucstricmp]
  | x :: xs, y :: ys => by
    simp only [ucstricmp, List.map_cons]
    by_cases h : foldCase x = foldCase y
    · rw [if_pos h, h, List.Lex.cons_iff]
      exact ucstricmp_neg_iff xs ys
    · rw [if_neg h]
      constructor
      · intro hlt
        exact List.Lex.rel (by omega)
      · intro hlex
        have := lex_cons_ne hlex h
        omega

theorem ucstricmp_zero_iff : ∀ (a b : List Char),
    ucstricmp a b = 0 ↔ a.map foldCase = b.map foldCase
  | [], [] => by simp [ucstricmp]
  | [], _ :: _ => by simp [ucstricmp]
  | _ :: _, [] => by simp [ucstricmp]
  | x :: xs, y :: ys => by
    simp only [ucstricmp, List.map_cons, List.cons.injEq]
    by_cases h : foldCase x = foldCase y
    · rw [if_pos h]
      simp only [h, true_and]
      exact ucstricmp_zero_iff xs ys
    · rw [if_neg h]
      constructor
      · intro h0
        omega
      · intro h0
        exact absurd h0.1 h

/-- The comparison of `SortMailboxes` is the lexicographic order of the
case-folded names. -/
theorem SortMailboxes_iff_le (a b : TreeItemMailbox) :
    SortMailboxes a b = true ↔ nameLeIgnoringCase a b := by
  unfold nameLeIgnoringCase foldedName
  rw [← ucstricmp_neg_iff, ← ucstricmp_zero_iff]
  simp only [SortMailboxes, QString_compare, decide_eq_true_eq]
  omega

/-- C20: `SortMailboxes( a, b )` is true exactly when the name of `a` compares
less than or equal to the name of `b` ignoring case; so one of the two
directions always holds, a node compares true with itself, and both
directions hold exactly when the names are equal ignoring case. -/
theorem SortMailboxes_le_total_refl (a b : TreeItemMailbox) :
    (SortMailboxes a b = true ↔ nameLeIgnoringCase a b) ∧
      (SortMailboxes a b = true ∨ SortMailboxes b a = true) ∧
      SortMailboxes a a = true ∧
      ((SortMailboxes a b = true ∧ SortMailboxes b a = true) ↔ nameEqIgnoringCase a b) := by
  refine ⟨SortMailboxes_iff_le a b, SortMailboxes_total a b, ?_, ?_⟩
  · exact (SortMailboxes_iff_le a a).mpr (Or.inr rfl)
  · rw [SortMailboxes_iff_le, SortMailboxes_iff_le]
    unfold nameLeIgnoringCase nameEqIgnoringCase
    constructor
    · rintro ⟨h1 | h1, h2 | h2⟩
      · exact absurd h2 (asymm h1)
      · exact h2.symm
      · exact h1
      · exact h1
    · intro h
      exact ⟨Or.inr h, Or.inr h.symm⟩

/-- The comparison on names that differ in case only, and on names in and out
of order. -/
theorem SortMailboxes_examples :
    SortMailboxes (TreeItemMailbox.ofList 0 (listResponse "Sent"))
        (TreeItemMailbox.ofList 0 (listResponse "sent")) = true ∧
      SortMailboxes (TreeItemMailbox.ofList 0 (listResponse "sent"))
        (TreeItemMailbox.ofList 0 (listResponse "Sent")) = true ∧
      SortMailboxes (TreeItemMailbox.ofList 0 (listResponse "INBOX"))
        (TreeItemMailbox.ofList 0 (listResponse "sent")) = true ∧
      SortMailboxes (TreeItemMailbox.ofList 0 (listResponse "sent"))
        (TreeItemMailbox.ofList 0 (listResponse "INBOX")) = false := by
  decide

end Mailbox
end Imap
